import Mathlib

/-!
Shallow embedding of the cardano-c binary domain core, for checking the
specification's claims about plutus-data sets, DRep-registration
certificates, metadatum CBOR/JSON bridging and the Blockfrost
script-evaluation response parser.

Byte strings are modelled as `List Nat` with each entry one octet; the
CBOR writer only ever emits values below 256.  Machine integers are `Nat`
(resp. `Int`) with explicit bounds where overflow matters.  Fallible C
functions returning `cardano_error_t` with out-parameters are modelled as
`Except CardanoError α`.
-/

namespace CardanoC

/-- Error codes from `cardano/error.h` (the enum in the repository; members
used by the embedded functions only).  Numeric values are irrelevant to the
claims, so this is an inductive. -/
inductive CardanoError where
  | genericError
  | insufficientBufferSize
  | pointerIsNull
  | memoryAllocationFailed
  | outOfBoundsMemoryRead
  | errorEncoding
  | errorDecoding
  | unexpectedCborType
  | invalidCborValue
  | invalidCborArraySize
  | invalidBlake2bHashSize
  | invalidMetadatumConversion
  | invalidMetadatumBoundedBytesSize
  | invalidMetadatumTextStringSize
  | invalidJson
  | scriptEvaluationFailure
  | elementNotFound
  deriving DecidableEq, Repr

/-! ## CBOR initial-byte / argument codec

Modelled from the spec: the CBOR reader and writer sources
(`cbor_reader.c` / `cbor_writer.c`) are not under `src/`; §4.1 and §4.2 of
the spec describe them.  Integer arguments follow the major-type
length-prefix rules (0..23 inline; additional info 24/25/26/27 followed by
1/2/4/8 big-endian bytes); the writer prefers shortest form. -/

/-- Canonical encoding of a CBOR head: major type `mt` with argument `n`
(shortest form, as the writer emits). -/
def encodeArg (mt n : Nat) : List Nat :=
  if n < 24 then [32 * mt + n]
  else if n < 256 then [32 * mt + 24, n]
  else if n < 65536 then [32 * mt + 25, n / 256, n % 256]
  else if n < 4294967296 then
    [32 * mt + 26, n / 16777216, n / 65536 % 256, n / 256 % 256, n % 256]
  else
    [32 * mt + 27,
     n / 72057594037927936 % 256, n / 281474976710656 % 256,
     n / 1099511627776 % 256, n / 4294967296 % 256,
     n / 16777216 % 256, n / 65536 % 256, n / 256 % 256, n % 256]

/-- Decode the argument following an initial byte whose additional
information is `ai` (definite forms only; `none` on reserved / indefinite
additional info or truncated input). -/
def readArg (ai : Nat) (b : List Nat) : Option (Nat × List Nat) :=
  if ai < 24 then some (ai, b)
  else if ai = 24 then
    match b with
    | x :: r => some (x, r)
    | [] => none
  else if ai = 25 then
    match b with
    | x :: y :: r => some (x * 256 + y, r)
    | _ => none
  else if ai = 26 then
    match b with
    | x1 :: x2 :: x3 :: x4 :: r =>
        some (x1 * 16777216 + x2 * 65536 + x3 * 256 + x4, r)
    | _ => none
  else if ai = 27 then
    match b with
    | x1 :: x2 :: x3 :: x4 :: x5 :: x6 :: x7 :: x8 :: r =>
        some (x1 * 72057594037927936 + x2 * 281474976710656 +
              x3 * 1099511627776 + x4 * 4294967296 +
              x5 * 16777216 + x6 * 65536 + x7 * 256 + x8, r)
    | _ => none
  else none

/-- Decode a definite-form CBOR head: returns major type, argument and the
remaining bytes. -/
def readHead (b : List Nat) : Option (Nat × Nat × List Nat) :=
  match b with
  | [] => none
  | h :: r =>
    if h % 32 = 31 then none
    else
      match readArg (h % 32) r with
      | some (n, rest) => some (h / 32, n, rest)
      | none => none

theorem readArg_lt (ai : Nat) (b : List Nat) (h : ai < 24) :
    readArg ai b = some (ai, b) := by
  simp [readArg, h]

theorem readArg_24 (x : Nat) (r : List Nat) :
    readArg 24 (x :: r) = some (x, r) := by
  simp [readArg]

theorem readArg_25 (x y : Nat) (r : List Nat) :
    readArg 25 (x :: y :: r) = some (x * 256 + y, r) := by
  simp [readArg]

theorem readArg_26 (x1 x2 x3 x4 : Nat) (r : List Nat) :
    readArg 26 (x1 :: x2 :: x3 :: x4 :: r) =
      some (x1 * 16777216 + x2 * 65536 + x3 * 256 + x4, r) := by
  simp [readArg]

theorem readArg_27 (x1 x2 x3 x4 x5 x6 x7 x8 : Nat) (r : List Nat) :
    readArg 27 (x1 :: x2 :: x3 :: x4 :: x5 :: x6 :: x7 :: x8 :: r) =
      some (x1 * 72057594037927936 + x2 * 281474976710656 +
            x3 * 1099511627776 + x4 * 4294967296 +
            x5 * 16777216 + x6 * 65536 + x7 * 256 + x8, r) := by
  simp [readArg]

theorem readHead_cons (h : Nat) (r : List Nat) (hne : h % 32 ≠ 31) :
    readHead (h :: r) =
      match readArg (h % 32) r with
      | some (n, rest) => some (h / 32, n, rest)
      | none => none := by
  simp [readHead, hne]

theorem readHead_encodeArg (mt n : Nat) (s : List Nat)
    (hmt : mt ≤ 7) (hn : n < 18446744073709551616) :
    readHead (encodeArg mt n ++ s) = some (mt, n, s) := by
  unfold encodeArg
  by_cases h1 : n < 24
  · simp only [h1, if_true, List.cons_append, List.nil_append]
    rw [readHead_cons _ _ (by omega), show (32 * mt + n) % 32 = n by omega,
        readArg_lt _ _ h1, show (32 * mt + n) / 32 = mt by omega]
  · by_cases h2 : n < 256
    · simp only [h1, h2, if_false, if_true, List.cons_append]
      rw [readHead_cons _ _ (by omega), show (32 * mt + 24) % 32 = 24 by omega,
          readArg_24, show (32 * mt + 24) / 32 = mt by omega]
      simp
    · by_cases h3 : n < 65536
      · simp only [h1, h2, h3, if_false, if_true, List.cons_append]
        rw [readHead_cons _ _ (by omega), show (32 * mt + 25) % 32 = 25 by omega,
            readArg_25, show (32 * mt + 25) / 32 = mt by omega]
        simp only [Option.some.injEq, Prod.mk.injEq, true_and]
        exact ⟨by omega, rfl⟩
      · by_cases h4 : n < 4294967296
        · simp only [h1, h2, h3, h4, if_false, if_true, List.cons_append]
          rw [readHead_cons _ _ (by omega), show (32 * mt + 26) % 32 = 26 by omega,
              readArg_26, show (32 * mt + 26) / 32 = mt by omega]
          simp only [Option.some.injEq, Prod.mk.injEq, true_and]
          exact ⟨by omega, rfl⟩
        · simp only [h1, h2, h3, h4, if_false, List.cons_append]
          rw [readHead_cons _ _ (by omega), show (32 * mt + 27) % 32 = 27 by omega,
              readArg_27, show (32 * mt + 27) / 32 = mt by omega]
          simp only [Option.some.injEq, Prod.mk.injEq, true_and]
          exact ⟨by omega, rfl⟩

/-! ## Skipping one complete data item

Modelled from the spec: §4.1 `skip_value` "recurses through composite
items" and `read_encoded_value` "returns the raw bytes of the next
complete data item".  The skipper is fuel-indexed; every recursive call
follows the consumption of at least one byte, so `length + 1` fuel always
suffices. -/

/-- Pending work while skipping: `items k` skips the next `k` data items,
`untilBreak` skips items up to and including a break byte (indefinite
arrays/maps), `chunks mt` skips string chunks of major type `mt` up to and
including a break byte. -/
inductive SkipTask where
  | items : Nat → SkipTask
  | untilBreak : SkipTask
  | chunks : Nat → SkipTask
  deriving DecidableEq, Repr

/-- Skip a single data item whose initial byte is `h` and whose remaining
input is `r`; composite content is skipped through the callback `rec`. -/
def cborSkipStepG (rec : SkipTask → List Nat → Option (List Nat))
    (h : Nat) (r : List Nat) : Option (List Nat) :=
  if h % 32 = 31 then
    if h / 32 = 2 ∨ h / 32 = 3 then rec (.chunks (h / 32)) r
    else if h / 32 = 4 ∨ h / 32 = 5 then rec .untilBreak r
    else none
  else
    (readArg (h % 32) r).bind fun p =>
      if h / 32 ≤ 1 then some p.2
      else if h / 32 = 2 ∨ h / 32 = 3 then
        if p.1 ≤ p.2.length then some (p.2.drop p.1) else none
      else if h / 32 = 4 then rec (.items p.1) p.2
      else if h / 32 = 5 then rec (.items (2 * p.1)) p.2
      else if h / 32 = 6 then rec (.items 1) p.2
      else some p.2

/-- Skip pending CBOR work, returning the bytes that follow it. -/
def cborSkip : Nat → SkipTask → List Nat → Option (List Nat)
  | _, .items 0, b => some b
  | 0, _, _ => none
  | fuel + 1, .items (k + 1), b =>
    match b with
    | [] => none
    | h :: r => (cborSkipStepG (cborSkip fuel) h r).bind (cborSkip fuel (.items k))
  | fuel + 1, .untilBreak, b =>
    match b with
    | [] => none
    | h :: r =>
      if h = 255 then some r
      else (cborSkipStepG (cborSkip fuel) h r).bind (cborSkip fuel .untilBreak)
  | fuel + 1, .chunks mt, b =>
    match b with
    | [] => none
    | h :: r =>
      if h = 255 then some r
      else if h / 32 = mt ∧ h % 32 ≠ 31 then
        (readArg (h % 32) r).bind fun p =>
          if p.1 ≤ p.2.length then cborSkip fuel (.chunks mt) (p.2.drop p.1)
          else none
      else none

/-- Skip a single data item with the given recursion fuel. -/
def cborSkipStep (fuel : Nat) : Nat → List Nat → Option (List Nat) :=
  cborSkipStepG (cborSkip fuel)

theorem cborSkipStepG_eq (fuel : Nat) :
    cborSkipStepG (cborSkip fuel) = cborSkipStep fuel := rfl

theorem readArg_length_le :
    ∀ ai b n rest, readArg ai b = some (n, rest) → List.length rest ≤ b.length := by
  intro ai b n rest h
  unfold readArg at h
  split_ifs at h
  · simp only [Option.some.injEq, Prod.mk.injEq] at h
    obtain ⟨-, h2⟩ := h
    subst h2
    exact le_rfl
  · match b, h with
    | x :: r, h =>
      simp only [Option.some.injEq, Prod.mk.injEq] at h
      obtain ⟨-, h2⟩ := h
      subst h2
      simp only [List.length_cons]
      omega
  · match b, h with
    | x :: y :: r, h =>
      simp only [Option.some.injEq, Prod.mk.injEq] at h
      obtain ⟨-, h2⟩ := h
      subst h2
      simp only [List.length_cons]
      omega
  · match b, h with
    | x1 :: x2 :: x3 :: x4 :: r, h =>
      simp only [Option.some.injEq, Prod.mk.injEq] at h
      obtain ⟨-, h2⟩ := h
      subst h2
      simp only [List.length_cons]
      omega
  · match b, h with
    | x1 :: x2 :: x3 :: x4 :: x5 :: x6 :: x7 :: x8 :: r, h =>
      simp only [Option.some.injEq, Prod.mk.injEq] at h
      obtain ⟨-, h2⟩ := h
      subst h2
      simp only [List.length_cons]
      omega
theorem cborSkip_items_zero (f : Nat) (b : List Nat) :
    cborSkip f (.items 0) b = some b := by
  cases f <;> simp [cborSkip]

theorem option_bind_some (x : Option α) : x.bind some = x := by
  cases x <;> rfl

/-- Skipping `k + 1` items means skipping one item, then `k` more. -/
theorem cborSkip_items_succ (f k : Nat) (b : List Nat) :
    cborSkip (f + 1) (.items (k + 1)) b =
      (cborSkip (f + 1) (.items 1) b).bind (cborSkip f (.items k)) := by
  cases b with
  | nil => simp [cborSkip]
  | cons h r =>
    simp only [cborSkip, cborSkipStepG_eq]
    cases cborSkipStep f h r with
    | none => rfl
    | some r' => simp [cborSkip_items_zero]

/-- One step of the skipper consumes at least the initial byte. -/
theorem cborSkipStep_length (f : Nat)
    (ih : ∀ t b r, cborSkip f t b = some r → List.length r ≤ b.length) :
    ∀ h b r, cborSkipStep f h b = some r → List.length r ≤ b.length := by
  intro h b r hs
  unfold cborSkipStep cborSkipStepG at hs
  by_cases h31 : h % 32 = 31
  · rw [if_pos h31] at hs
    split_ifs at hs with hA hB
    · exact ih _ _ _ hs
    · exact ih _ _ _ hs
  · rw [if_neg h31] at hs
    match harg : readArg (h % 32) b with
    | none => rw [harg] at hs; exact absurd hs (by simp)
    | some (n, rest) =>
      rw [harg] at hs
      simp only [Option.some_bind] at hs
      have hrest : List.length rest ≤ b.length := readArg_length_le _ _ _ _ harg
      split_ifs at hs
      all_goals
        first
        | exact le_trans (ih _ _ _ hs) hrest
        | (simp only [Option.some.injEq] at hs
           subst hs
           (try simp only [List.length_drop])
           omega)
        | exact absurd hs (by simp)

/-- Skipping never lengthens the input, and skipping at least one item
strictly consumes bytes. -/
theorem cborSkip_length :
    ∀ f t b r, cborSkip f t b = some r →
      List.length r ≤ b.length ∧ (t ≠ .items 0 → List.length r < b.length) := by
  intro f
  induction f with
  | zero =>
    intro t b r h
    match t with
    | .items 0 =>
      rw [cborSkip_items_zero] at h
      simp only [Option.some.injEq] at h
      exact ⟨le_of_eq (by rw [h]), fun hne => absurd rfl hne⟩
    | .items (k + 1) => simp [cborSkip] at h
    | .untilBreak => simp [cborSkip] at h
    | .chunks mt => simp [cborSkip] at h
  | succ f ih =>
    have ihle : ∀ t b r, cborSkip f t b = some r → List.length r ≤ b.length :=
      fun t b r h => (ih t b r h).1
    intro t b r h
    match t with
    | .items 0 =>
      rw [cborSkip_items_zero] at h
      simp only [Option.some.injEq] at h
      exact ⟨le_of_eq (by rw [h]), fun hne => absurd rfl hne⟩
    | .items (k + 1) =>
      match b with
      | [] => simp [cborSkip] at h
      | hd :: tl =>
        simp only [cborSkip, cborSkipStepG_eq] at h
        match hstep : cborSkipStep f hd tl with
        | none => rw [hstep] at h; exact absurd h (by simp)
        | some r' =>
          rw [hstep] at h
          simp only [Option.some_bind] at h
          have h1 : List.length r' ≤ tl.length := cborSkipStep_length f ihle _ _ _ hstep
          have h2 : List.length r ≤ r'.length := ihle _ _ _ h
          constructor
          · calc List.length r ≤ r'.length := h2
              _ ≤ tl.length := h1
              _ ≤ (hd :: tl).length := by simp
          · intro _
            calc List.length r ≤ r'.length := h2
              _ ≤ tl.length := h1
              _ < (hd :: tl).length := by simp
    | .untilBreak =>
      match b with
      | [] => simp [cborSkip] at h
      | hd :: tl =>
        simp only [cborSkip, cborSkipStepG_eq] at h
        by_cases hbr : hd = 255
        · rw [if_pos hbr] at h
          simp only [Option.some.injEq] at h
          constructor
          · rw [← h]; simp
          · intro _; rw [← h]; simp
        · rw [if_neg hbr] at h
          match hone : cborSkipStep f hd tl with
          | none => rw [hone] at h; exact absurd h (by simp)
          | some r' =>
            rw [hone] at h
            simp only [Option.some_bind] at h
            have h1 : List.length r' ≤ tl.length := cborSkipStep_length f ihle _ _ _ hone
            have h2 : List.length r ≤ r'.length := ihle _ _ _ h
            simp only [List.length_cons]
            exact ⟨by omega, fun _ => by omega⟩
    | .chunks mt =>
      match b with
      | [] => simp [cborSkip] at h
      | hd :: tl =>
        simp only [cborSkip, cborSkipStepG_eq] at h
        by_cases hbr : hd = 255
        · rw [if_pos hbr] at h
          simp only [Option.some.injEq] at h
          constructor
          · rw [← h]; simp
          · intro _; rw [← h]; simp
        · rw [if_neg hbr] at h
          split_ifs at h with hmt
          · match harg : readArg (hd % 32) tl with
            | none => rw [harg] at h; exact absurd h (by simp)
            | some (n, rest) =>
              rw [harg] at h
              simp only [Option.some_bind] at h
              have hrest : List.length rest ≤ tl.length := readArg_length_le _ _ _ _ harg
              split_ifs at h with hn
              · have h2 : List.length r ≤ (rest.drop n).length := ihle _ _ _ h
                have h3 : List.length (rest.drop n) ≤ rest.length := by simp
                simp only [List.length_cons]
                exact ⟨by omega, fun _ => by omega⟩

/-- Step monotonicity in fuel, given monotonicity of the skipper. -/
theorem cborSkipStep_mono (f f' : Nat)
    (ihm : ∀ t b r, cborSkip f t b = some r → cborSkip f' t b = some r) :
    ∀ h b r, cborSkipStep f h b = some r → cborSkipStep f' h b = some r := by
  intro h b r hs
  unfold cborSkipStep cborSkipStepG at hs ⊢
  by_cases h31 : h % 32 = 31
  · rw [if_pos h31] at hs ⊢
    split_ifs at hs ⊢ with hA hB
    · exact ihm _ _ _ hs
    · exact ihm _ _ _ hs
  · rw [if_neg h31] at hs ⊢
    match harg : readArg (h % 32) b with
    | none => rw [harg] at hs; exact absurd hs (by simp)
    | some (n, rest) =>
      rw [harg] at hs
      simp only [Option.some_bind] at hs ⊢
      split_ifs at hs ⊢
      all_goals
        first
        | exact ihm _ _ _ hs
        | exact hs

/-- Success of the skipper is preserved by increasing the fuel. -/
theorem cborSkip_mono :
    ∀ f t b r f', f ≤ f' → cborSkip f t b = some r → cborSkip f' t b = some r := by
  intro f
  induction f with
  | zero =>
    intro t b r f' _ h
    match t with
    | .items 0 =>
      rw [cborSkip_items_zero] at h
      rw [cborSkip_items_zero]
      exact h
    | .items (k + 1) => simp [cborSkip] at h
    | .untilBreak => simp [cborSkip] at h
    | .chunks mt => simp [cborSkip] at h
  | succ f ih =>
    intro t b r f' hf h
    match f', hf with
    | f'' + 1, hf =>
      have hff : f ≤ f'' := by omega
      have ihm : ∀ t b r, cborSkip f t b = some r → cborSkip f'' t b = some r :=
        fun t b r hh => ih t b r f'' hff hh
      match t with
      | .items 0 =>
        rw [cborSkip_items_zero] at h
        rw [cborSkip_items_zero]
        exact h
      | .items (k + 1) =>
        match b with
        | [] => simp [cborSkip] at h
        | hd :: tl =>
          simp only [cborSkip, cborSkipStepG_eq] at h ⊢
          match hstep : cborSkipStep f hd tl with
          | none => rw [hstep] at h; exact absurd h (by simp)
          | some r' =>
            rw [hstep] at h
            simp only [Option.some_bind] at h
            rw [cborSkipStep_mono f f'' ihm _ _ _ hstep]
            simp only [Option.some_bind]
            exact ihm _ _ _ h
      | .untilBreak =>
        match b with
        | [] => simp [cborSkip] at h
        | hd :: tl =>
          simp only [cborSkip, cborSkipStepG_eq] at h ⊢
          by_cases hbr : hd = 255
          · rw [if_pos hbr] at h ⊢
            exact h
          · rw [if_neg hbr] at h ⊢
            match hone : cborSkipStep f hd tl with
            | none => rw [hone] at h; exact absurd h (by simp)
            | some r' =>
              rw [hone] at h
              simp only [Option.some_bind] at h
              rw [cborSkipStep_mono f f'' ihm _ _ _ hone]
              simp only [Option.some_bind]
              exact ihm _ _ _ h
      | .chunks mt =>
        match b with
        | [] => simp [cborSkip] at h
        | hd :: tl =>
          simp only [cborSkip, cborSkipStepG_eq] at h ⊢
          by_cases hbr : hd = 255
          · rw [if_pos hbr] at h ⊢
            exact h
          · rw [if_neg hbr] at h ⊢
            split_ifs at h ⊢ with hmt
            · match harg : readArg (hd % 32) tl with
              | none => rw [harg] at h; exact absurd h (by simp)
              | some (n, rest) =>
                rw [harg] at h
                simp only [Option.some_bind] at h ⊢
                split_ifs at h ⊢ with hn
                · exact ihm _ _ _ h

/-! ## The CBOR reader

Modelled from the spec (§4.1, §4.8): a stream cursor over a byte slice
with a stack of open containers.  "Arrays/maps opened with definite length
decrement an internal counter; indefinite forms track depth until a break
byte."  A frame `some k` is a definite container with `k` data items still
pending; `none` is an indefinite container. -/

/-- Reader peek states (`cardano_cbor_reader_state_t`). -/
inductive CborReaderState where
  | unsignedInteger
  | negativeInteger
  | bytestring
  | startIndefiniteLengthBytestring
  | textstring
  | startIndefiniteLengthTextstring
  | startArray
  | startMap
  | tag
  | simpleValue
  | null
  | boolean
  | floatingPoint
  | endArray
  | finished
  deriving DecidableEq, Repr

/-- `cardano_cbor_reader_t`: the remaining bytes plus the open-container
stack. -/
structure CborReader where
  bytes : List Nat
  stack : List (Option Nat)
  deriving DecidableEq, Repr

/-- Build a reader over a byte string (`cardano_cbor_reader_new`). -/
def mkCborReader (b : List Nat) : CborReader := ⟨b, []⟩

/-- Record the completion of one data item at the current nesting level:
a definite enclosing frame has one fewer pending item. -/
def completeItem : List (Option Nat) → List (Option Nat)
  | some (k + 1) :: s => some k :: s
  | s => s

/-- The state determined by an initial byte other than a break byte,
classified by major type and additional information. -/
def peekByte (h : Nat) : CborReaderState :=
  if h / 32 = 0 then .unsignedInteger
  else if h / 32 = 1 then .negativeInteger
  else if h / 32 = 2 then
    if h % 32 = 31 then .startIndefiniteLengthBytestring else .bytestring
  else if h / 32 = 3 then
    if h % 32 = 31 then .startIndefiniteLengthTextstring else .textstring
  else if h / 32 = 4 then .startArray
  else if h / 32 = 5 then .startMap
  else if h / 32 = 6 then .tag
  else if h % 32 = 22 then .null
  else if h % 32 = 20 ∨ h % 32 = 21 then .boolean
  else if h % 32 = 25 ∨ h % 32 = 26 ∨ h % 32 = 27 then .floatingPoint
  else .simpleValue

/-- `cardano_cbor_reader_peek_state`. -/
def peekState (r : CborReader) : Except CardanoError CborReaderState :=
  match r.stack with
  | some 0 :: _ => .ok .endArray
  | stk =>
    match r.bytes with
    | [] => if stk.isEmpty then .ok .finished else .error .errorDecoding
    | h :: _ =>
      if h = 255 then
        match stk with
        | none :: _ => .ok .endArray
        | _ => .error .errorDecoding
      else .ok (peekByte h)

/-- `cardano_cbor_reader_read_uint` (major type 0). -/
def cardano_cbor_reader_read_uint (r : CborReader) :
    Except CardanoError (Nat × CborReader) :=
  match readHead r.bytes with
  | some (mt, n, rest) =>
    if mt = 0 then .ok (n, ⟨rest, completeItem r.stack⟩)
    else .error .unexpectedCborType
  | none => .error .unexpectedCborType

/-- `cardano_cbor_reader_read_int` (major types 0 and 1). -/
def cardano_cbor_reader_read_int (r : CborReader) :
    Except CardanoError (Int × CborReader) :=
  match readHead r.bytes with
  | some (mt, n, rest) =>
    if mt = 0 then .ok ((n : Int), ⟨rest, completeItem r.stack⟩)
    else if mt = 1 then .ok (-1 - (n : Int), ⟨rest, completeItem r.stack⟩)
    else .error .unexpectedCborType
  | none => .error .unexpectedCborType

/-- `cardano_cbor_reader_read_tag` (major type 6; a tag does not complete a
data item, the tagged content does). -/
def cardano_cbor_reader_read_tag (r : CborReader) :
    Except CardanoError (Nat × CborReader) :=
  match readHead r.bytes with
  | some (mt, t, rest) =>
    if mt = 6 then .ok (t, ⟨rest, r.stack⟩) else .error .unexpectedCborType
  | none => .error .unexpectedCborType

/-- `cardano_cbor_reader_peek_tag`. -/
def cardano_cbor_reader_peek_tag (r : CborReader) :
    Except CardanoError Nat :=
  match readHead r.bytes with
  | some (mt, t, _) =>
    if mt = 6 then .ok t else .error .unexpectedCborType
  | none => .error .unexpectedCborType

/-- `cardano_cbor_reader_read_null` (simple value 22, byte 0xF6). -/
def cardano_cbor_reader_read_null (r : CborReader) :
    Except CardanoError CborReader :=
  match r.bytes with
  | 246 :: rest => .ok ⟨rest, completeItem r.stack⟩
  | _ => .error .unexpectedCborType

/-- `cardano_cbor_reader_read_start_array` (major type 4): returns
`some n` for a definite length, `none` for indefinite, and pushes the
container frame. -/
def cardano_cbor_reader_read_start_array (r : CborReader) :
    Except CardanoError (Option Nat × CborReader) :=
  match r.bytes with
  | [] => .error .errorDecoding
  | h :: rest =>
    if h / 32 = 4 then
      if h % 32 = 31 then .ok (none, ⟨rest, none :: r.stack⟩)
      else
        match readHead r.bytes with
        | some (_, n, rest') => .ok (some n, ⟨rest', some n :: r.stack⟩)
        | none => .error .errorDecoding
    else .error .unexpectedCborType

/-- `cardano_cbor_validate_end_array`: requires the pending-item state to
be `end_array`, pops the container frame (consuming the break byte of an
indefinite container) and completes the containing item. -/
def cardano_cbor_validate_end_array (r : CborReader) :
    Except CardanoError CborReader :=
  match r.stack with
  | some 0 :: s => .ok ⟨r.bytes, completeItem s⟩
  | none :: s =>
    match r.bytes with
    | 255 :: rest => .ok ⟨rest, completeItem s⟩
    | _ => .error .unexpectedCborType
  | _ => .error .unexpectedCborType

/-- `cardano_cbor_validate_tag`: reads a tag and compares it with the
expected one. -/
def cardano_cbor_validate_tag (r : CborReader) (expected : Nat) :
    Except CardanoError CborReader :=
  match cardano_cbor_reader_read_tag r with
  | .error e => .error e
  | .ok (t, r') => if t = expected then .ok r' else .error .invalidCborValue

/-- `cardano_cbor_validate_array_of_n_elements`: reads an array header and
requires a definite length equal to `n`. -/
def cardano_cbor_validate_array_of_n_elements (r : CborReader) (n : Nat) :
    Except CardanoError CborReader :=
  match cardano_cbor_reader_read_start_array r with
  | .error e => .error e
  | .ok (some len, r') =>
    if len = n then .ok r' else .error .invalidCborArraySize
  | .ok (none, _) => .error .invalidCborArraySize

/-- `cardano_cbor_validate_enum_value`: reads an unsigned integer and
requires it to equal the expected enum value. -/
def cardano_cbor_validate_enum_value (r : CborReader) (expected : Nat) :
    Except CardanoError (Nat × CborReader) :=
  match cardano_cbor_reader_read_uint r with
  | .error e => .error e
  | .ok (v, r') => if v = expected then .ok (v, r') else .error .invalidCborValue

/-- `cardano_cbor_reader_read_encoded_value`: the raw bytes of the next
complete data item; the cursor advances past it. -/
def cardano_cbor_reader_read_encoded_value (r : CborReader) :
    Except CardanoError (List Nat × CborReader) :=
  match cborSkip (r.bytes.length + 1) (.items 1) r.bytes with
  | some rest =>
    .ok (r.bytes.take (r.bytes.length - rest.length), ⟨rest, completeItem r.stack⟩)
  | none => .error .errorDecoding

/-- Chunks of an indefinite-length string: definite chunks of major type
`mt` concatenated up to a break byte. -/
def readChunksFuel : Nat → Nat → List Nat → Option (List Nat × List Nat)
  | 0, _, _ => none
  | fuel + 1, mt, b =>
    match b with
    | [] => none
    | h :: r =>
      if h = 255 then some ([], r)
      else if h / 32 = mt ∧ h % 32 ≠ 31 then
        (readArg (h % 32) r).bind fun p =>
          if p.1 ≤ p.2.length then
            (readChunksFuel fuel mt (p.2.drop p.1)).map fun q =>
              (p.2.take p.1 ++ q.1, q.2)
          else none
      else none

/-- `cardano_cbor_reader_read_bytestring` (major type 2; indefinite-length
strings concatenate their chunks). -/
def cardano_cbor_reader_read_bytestring (r : CborReader) :
    Except CardanoError (List Nat × CborReader) :=
  match r.bytes with
  | [] => .error .errorDecoding
  | h :: rest =>
    if h / 32 = 2 then
      if h % 32 = 31 then
        match readChunksFuel (rest.length + 1) 2 rest with
        | some (content, rest') => .ok (content, ⟨rest', completeItem r.stack⟩)
        | none => .error .errorDecoding
      else
        match readHead r.bytes with
        | some (_, n, rest') =>
          if n ≤ rest'.length then
            .ok (rest'.take n, ⟨rest'.drop n, completeItem r.stack⟩)
          else .error .errorDecoding
        | none => .error .errorDecoding
    else .error .unexpectedCborType

/-- `cardano_cbor_reader_read_textstring` (major type 3). -/
def cardano_cbor_reader_read_textstring (r : CborReader) :
    Except CardanoError (List Nat × CborReader) :=
  match r.bytes with
  | [] => .error .errorDecoding
  | h :: rest =>
    if h / 32 = 3 then
      if h % 32 = 31 then
        match readChunksFuel (rest.length + 1) 3 rest with
        | some (content, rest') => .ok (content, ⟨rest', completeItem r.stack⟩)
        | none => .error .errorDecoding
      else
        match readHead r.bytes with
        | some (_, n, rest') =>
          if n ≤ rest'.length then
            .ok (rest'.take n, ⟨rest'.drop n, completeItem r.stack⟩)
          else .error .errorDecoding
        | none => .error .errorDecoding
    else .error .unexpectedCborType

/-- `cardano_cbor_reader_read_bigint`: bignum tags 2/3 followed by a byte
string holding a big-endian magnitude (per spec §4.1, the value is negated
for tag 3). -/
def cardano_cbor_reader_read_bigint (r : CborReader) :
    Except CardanoError (Int × CborReader) :=
  match cardano_cbor_reader_read_tag r with
  | .error e => .error e
  | .ok (t, r') =>
    if t = 2 ∨ t = 3 then
      match cardano_cbor_reader_read_bytestring r' with
      | .error e => .error e
      | .ok (mag, r'') =>
        let v : Nat := mag.foldl (fun acc d => acc * 256 + d) 0
        .ok (if t = 2 then (v : Int) else -(v : Int), r'')
    else .error .unexpectedCborType

/-! ## The CBOR writer

Modelled from the spec (§4.2): streaming encode into a growable buffer;
each write is modelled as the list of bytes it appends. -/

def cardano_cbor_writer_write_uint (n : Nat) : List Nat := encodeArg 0 n

def cardano_cbor_writer_write_tag (t : Nat) : List Nat := encodeArg 6 t

def cardano_cbor_writer_write_start_array (n : Nat) : List Nat := encodeArg 4 n

def cardano_cbor_writer_write_null : List Nat := [246]

def cardano_cbor_writer_write_bytestring (bs : List Nat) : List Nat :=
  encodeArg 2 bs.length ++ bs

def cardano_cbor_writer_write_textstring (ts : List Nat) : List Nat :=
  encodeArg 3 ts.length ++ ts

/-- `cardano_cbor_writer_write_encoded`: raw bytes verbatim. -/
def cardano_cbor_writer_write_encoded (raw : List Nat) : List Nat := raw

/-- `cardano_cbor_writer_write_signed_int`: major type 0 for non-negative
values, major type 1 otherwise. -/
def cardano_cbor_writer_write_signed_int (i : Int) : List Nat :=
  if 0 ≤ i then encodeArg 0 i.toNat else encodeArg 1 (-1 - i).toNat

theorem cborSkip_items_one (f : Nat) (h : Nat) (r : List Nat) :
    cborSkip (f + 1) (.items 1) (h :: r) = cborSkipStep f h r := by
  simp only [cborSkip, cborSkipStepG_eq]
  cases cborSkipStep f h r with
  | none => rfl
  | some r' => simp [cborSkip_items_zero]

theorem cborSkip_untilBreak_cons (f h : Nat) (r : List Nat) (hbr : h ≠ 255) :
    cborSkip (f + 1) .untilBreak (h :: r) =
      (cborSkipStep f h r).bind (cborSkip f .untilBreak) := by
  simp only [cborSkip, cborSkipStepG_eq]
  rw [if_neg hbr]

/-! ## Plutus data and plutus data sets

`plutus_data_set.c` is under `src/` (the structure holds an element array,
a `uses_tags` flag and a CBOR cache).  The element type is modelled. -/

/-- Tag 258 denotes a finite set (`CARDANO_CBOR_TAG_SET`). -/
def CARDANO_CBOR_TAG_SET : Nat := 258

/-- Modelled from the spec: `plutus_data.c` is not under `src/`.  Per §4.4
a cache buffer is attached at decode and, if present, `to_cbor` writes the
cached bytes verbatim; for elements obtained from `from_cbor` the cache is
always present, so the element is represented by its cached raw
encoding. -/
structure cardano_plutus_data_t where
  cbor_cache : List Nat
  deriving DecidableEq, Repr

/-- Modelled from the spec: `cardano_plutus_data_from_cbor` reads one
complete data item and attaches its raw encoding as the CBOR cache. -/
def cardano_plutus_data_from_cbor (r : CborReader) :
    Except CardanoError (cardano_plutus_data_t × CborReader) :=
  match cardano_cbor_reader_read_encoded_value r with
  | .ok (enc, r') => .ok (⟨enc⟩, r')
  | .error e => .error e

/-- Modelled from the spec: `cardano_plutus_data_to_cbor` writes the cached
bytes verbatim. -/
def cardano_plutus_data_to_cbor (d : cardano_plutus_data_t) : List Nat :=
  d.cbor_cache

/-- `cardano_plutus_data_set_t` (plutus_data_set.c): element array,
tag-258 flag, CBOR cache. -/
structure cardano_plutus_data_set_t where
  elements : List cardano_plutus_data_t
  uses_tags : Bool
  cbor_cache : Option (List Nat)
  deriving DecidableEq, Repr

/-- The element loop of `cardano_plutus_data_set_from_cbor`: read elements
while the reader state is not `end_array`. -/
def plutusDataSetReadElems :
    Nat → CborReader → List cardano_plutus_data_t →
    Except CardanoError (List cardano_plutus_data_t × CborReader)
  | 0, _, _ => .error .errorDecoding
  | fuel + 1, r, acc =>
    match peekState r with
    | .error e => .error e
    | .ok state =>
      if state = .endArray then .ok (acc.reverse, r)
      else
        match cardano_plutus_data_from_cbor r with
        | .error e => .error e
        | .ok (elem, r') => plutusDataSetReadElems fuel r' (elem :: acc)

/-- `cardano_plutus_data_set_from_cbor`: clones the reader to capture the
raw encoded item into the CBOR cache, records whether the encoding starts
with a tag (validated to be 258), then reads the element array. -/
def cardano_plutus_data_set_from_cbor (reader : CborReader) :
    Except CardanoError (cardano_plutus_data_set_t × CborReader) :=
  match cardano_cbor_reader_read_encoded_value reader with
  | .error e => .error e
  | .ok (cache, _clone) =>
    match peekState reader with
    | .error _ => .error .errorDecoding
    | .ok state =>
      match
        if state = CborReaderState.tag then
          cardano_cbor_validate_tag reader CARDANO_CBOR_TAG_SET
        else .ok reader with
      | .error e => .error e
      | .ok r1 =>
        match cardano_cbor_reader_read_start_array r1 with
        | .error e => .error e
        | .ok (_length, r2) =>
          match plutusDataSetReadElems (r2.bytes.length + 1) r2 [] with
          | .error e => .error e
          | .ok (elems, r3) =>
            match cardano_cbor_validate_end_array r3 with
            | .error e => .error e
            | .ok r4 =>
              .ok ({ elements := elems,
                     uses_tags := decide (state = CborReaderState.tag),
                     cbor_cache := some cache }, r4)

/-- `cardano_plutus_data_set_to_cbor`: writes the cached bytes verbatim
when a cache is present; otherwise writes tag 258 (when `uses_tags`) and
the element array. -/
def cardano_plutus_data_set_to_cbor (s : cardano_plutus_data_set_t) :
    Except CardanoError (List Nat) :=
  match s.cbor_cache with
  | some cache => .ok (cardano_cbor_writer_write_encoded cache)
  | none =>
    .ok ((if s.uses_tags then cardano_cbor_writer_write_tag CARDANO_CBOR_TAG_SET
          else []) ++
         cardano_cbor_writer_write_start_array s.elements.length ++
         (s.elements.map cardano_plutus_data_to_cbor).flatten)

/-- `cardano_plutus_data_set_get_length`. -/
def cardano_plutus_data_set_get_length (s : cardano_plutus_data_set_t) : Nat :=
  s.elements.length

/-- `cardano_plutus_data_set_get`: `cardano_array_get` yields no element
for an out-of-range index, in which case the function returns
`CARDANO_OUT_OF_BOUNDS_MEMORY_READ` and writes nothing. -/
def cardano_plutus_data_set_get (s : cardano_plutus_data_set_t) (index : Nat) :
    Except CardanoError cardano_plutus_data_t :=
  match s.elements.get? index with
  | none => .error .outOfBoundsMemoryRead
  | some e => .ok e

/-! ### Lemmas about the reader and the set decoder -/

theorem completeItem_def_succ (k : Nat) (stk : List (Option Nat)) :
    completeItem (some (k + 1) :: stk) = some k :: stk := rfl

theorem completeItem_indef (stk : List (Option Nat)) :
    completeItem (none :: stk) = none :: stk := rfl

theorem completeItem_nil : completeItem [] = [] := rfl

theorem readHead_cons_31 (h : Nat) (r : List Nat) (h31 : h % 32 = 31) :
    readHead (h :: r) = none := by
  simp [readHead, h31]

theorem readHead_inv (b : List Nat) (mt n : Nat) (rest : List Nat)
    (h : readHead b = some (mt, n, rest)) :
    ∃ hd tl, b = hd :: tl ∧ hd % 32 ≠ 31 ∧ hd / 32 = mt ∧
      readArg (hd % 32) tl = some (n, rest) := by
  match b with
  | [] => simp [readHead] at h
  | hd :: tl =>
    refine ⟨hd, tl, rfl, ?_⟩
    by_cases h31 : hd % 32 = 31
    · rw [readHead_cons_31 hd tl h31] at h
      exact absurd h (by simp)
    · rw [readHead_cons hd tl h31] at h
      match harg : readArg (hd % 32) tl with
      | none => rw [harg] at h; exact absurd h (by simp)
      | some (n', rest') =>
        rw [harg] at h
        simp only [Option.some.injEq, Prod.mk.injEq] at h
        exact ⟨h31, h.1, by rw [h.2.1, h.2.2]⟩

set_option maxHeartbeats 1000000 in
theorem peekByte_ne_endArray (h : Nat) : peekByte h ≠ .endArray := by
  unfold peekByte
  split_ifs <;> decide

theorem peekState_some_zero (b0 : List Nat) (stk : List (Option Nat)) :
    peekState ⟨b0, some 0 :: stk⟩ = .ok .endArray := rfl

theorem peekState_break_indefinite (tl : List Nat) (stk : List (Option Nat)) :
    peekState ⟨255 :: tl, none :: stk⟩ = .ok .endArray := by
  simp [peekState]

theorem peekState_not_end_definite (b0 : List Nat) (k : Nat)
    (stk : List (Option Nat)) :
    peekState ⟨b0, some (k + 1) :: stk⟩ ≠ .ok .endArray := by
  cases b0 with
  | nil => simp [peekState]
  | cons h tl =>
    by_cases h255 : h = 255
    · simp [peekState, h255]
    · simp only [peekState, h255, if_false, ne_eq, Except.ok.injEq]
      exact peekByte_ne_endArray h

theorem peekState_not_end_indefinite (hd : Nat) (tl : List Nat)
    (stk : List (Option Nat)) (hbr : hd ≠ 255) :
    peekState ⟨hd :: tl, none :: stk⟩ ≠ .ok .endArray := by
  simp only [peekState, hbr, if_false, ne_eq, Except.ok.injEq]
  exact peekByte_ne_endArray hd

theorem cborSkipStep_length' (f : Nat) (h : Nat) (b r : List Nat)
    (hs : cborSkipStep f h b = some r) : List.length r ≤ b.length :=
  cborSkipStep_length f (fun t b r hh => (cborSkip_length f t b r hh).1) h b r hs

/-- Reading the element loop over a definite-length frame with `k` pending
items succeeds exactly when skipping `k` items does, leaving the same
bytes. -/
theorem plutusDataSetReadElems_definite :
    ∀ k fuel b0 stk acc elems r3,
      plutusDataSetReadElems fuel ⟨b0, some k :: stk⟩ acc = .ok (elems, r3) →
      ∃ b3, r3 = ⟨b3, some 0 :: stk⟩ ∧
        cborSkip (b0.length + 1) (.items k) b0 = some b3 := by
  intro k
  induction k with
  | zero =>
    intro fuel b0 stk acc elems r3 h
    match fuel with
    | 0 => simp [plutusDataSetReadElems] at h
    | f + 1 =>
      simp only [plutusDataSetReadElems] at h
      rw [peekState_some_zero] at h
      dsimp only at h
      simp only [if_true, Except.ok.injEq, Prod.mk.injEq] at h
      exact ⟨b0, h.2.symm, by rw [cborSkip_items_zero]⟩
  | succ k ihk =>
    intro fuel b0 stk acc elems r3 h
    match fuel with
    | 0 => simp [plutusDataSetReadElems] at h
    | f + 1 =>
      simp only [plutusDataSetReadElems] at h
      match hpeek : peekState ⟨b0, some (k + 1) :: stk⟩ with
      | .error e => rw [hpeek] at h; exact absurd h (by simp)
      | .ok st =>
        rw [hpeek] at h
        dsimp only at h
        have hne : ¬(st = .endArray) := by
          intro he
          rw [he] at hpeek
          exact peekState_not_end_definite b0 k stk hpeek
        rw [if_neg hne] at h
        unfold cardano_plutus_data_from_cbor
          cardano_cbor_reader_read_encoded_value at h
        dsimp only at h
        match hskip : cborSkip (b0.length + 1) (.items 1) b0 with
        | none => rw [hskip] at h; exact absurd h (by simp)
        | some rest1 =>
          rw [hskip] at h
          dsimp only at h
          simp only [completeItem_def_succ] at h
          obtain ⟨b3, hr3, hsk⟩ := ihk f rest1 stk _ elems r3 h
          refine ⟨b3, hr3, ?_⟩
          have hlt : rest1.length < b0.length :=
            (cborSkip_length _ _ _ _ hskip).2 (by simp)
          have hstep : cborSkip b0.length (.items k) rest1 = some b3 :=
            cborSkip_mono _ _ _ _ _ (by omega) hsk
          rw [cborSkip_items_succ b0.length k b0, hskip]
          simpa using hstep


/-- Reading the element loop inside an indefinite-length frame stops at the
break byte, and matches skipping items until the break. -/
theorem plutusDataSetReadElems_indefinite :
    ∀ fuel b0 stk acc elems r3,
      plutusDataSetReadElems fuel ⟨b0, none :: stk⟩ acc = .ok (elems, r3) →
      ∃ b3, r3 = ⟨255 :: b3, none :: stk⟩ ∧
        cborSkip (b0.length + 1) .untilBreak b0 = some b3 := by
  intro fuel
  induction fuel with
  | zero =>
    intro b0 stk acc elems r3 h
    simp [plutusDataSetReadElems] at h
  | succ f ih =>
    intro b0 stk acc elems r3 h
    simp only [plutusDataSetReadElems] at h
    cases b0 with
    | nil =>
      rw [show peekState ⟨[], none :: stk⟩ = .error .errorDecoding by
        simp [peekState]] at h
      exact absurd h (by simp)
    | cons hd tl =>
      by_cases hbr : hd = 255
      · subst hbr
        rw [peekState_break_indefinite] at h
        dsimp only at h
        simp only [if_true, Except.ok.injEq, Prod.mk.injEq] at h
        exact ⟨tl, h.2.symm, by simp [cborSkip]⟩
      · have hpeek : peekState ⟨hd :: tl, none :: stk⟩ = .ok (peekByte hd) := by
          simp [peekState, hbr]
        rw [hpeek] at h
        dsimp only at h
        rw [if_neg (peekByte_ne_endArray hd)] at h
        unfold cardano_plutus_data_from_cbor
          cardano_cbor_reader_read_encoded_value at h
        dsimp only at h
        match hskip : cborSkip ((hd :: tl).length + 1) (.items 1) (hd :: tl) with
        | none => rw [hskip] at h; exact absurd h (by simp)
        | some rest1 =>
          rw [hskip] at h
          dsimp only at h
          simp only [completeItem_indef] at h
          obtain ⟨b3, hr3, hsk⟩ := ih rest1 stk _ elems r3 h
          refine ⟨b3, hr3, ?_⟩
          have hstep : cborSkipStep (hd :: tl).length hd tl = some rest1 := by
            rw [← cborSkip_items_one]
            exact hskip
          rw [List.length_cons] at hstep
          have hlen : rest1.length ≤ tl.length := cborSkipStep_length' _ _ _ _ hstep
          rw [List.length_cons, cborSkip_untilBreak_cons _ _ _ hbr, hstep]
          simp only [Option.some_bind]
          refine cborSkip_mono _ _ _ _ _ ?_ hsk
          omega

/-- The array-header read, element loop, and end-of-array validation of
`cardano_plutus_data_set_from_cbor` together consume exactly one complete
data item. -/
theorem plutusDataSetBody_skip :
    ∀ r1 len r2 elems r3 r4,
      cardano_cbor_reader_read_start_array r1 = .ok (len, r2) →
      plutusDataSetReadElems (r2.bytes.length + 1) r2 [] = .ok (elems, r3) →
      cardano_cbor_validate_end_array r3 = .ok r4 →
      ∃ b4, r4 = ⟨b4, completeItem r1.stack⟩ ∧
        cborSkip (r1.bytes.length + 1) (.items 1) r1.bytes = some b4 := by
  intro r1 len r2 elems r3 r4 hsa hloop hend
  unfold cardano_cbor_reader_read_start_array at hsa
  match hb : r1.bytes with
  | [] => rw [hb] at hsa; exact absurd hsa (by simp)
  | hd :: rest =>
    rw [hb] at hsa
    dsimp only at hsa
    by_cases h4 : hd / 32 = 4
    case neg => rw [if_neg h4] at hsa; exact absurd hsa (by simp)
    case pos =>
    rw [if_pos h4] at hsa
    by_cases h31 : hd % 32 = 31
    · rw [if_pos h31] at hsa
      simp only [Except.ok.injEq, Prod.mk.injEq] at hsa
      obtain ⟨hlen, hr2⟩ := hsa
      subst hr2
      dsimp only at hloop
      obtain ⟨b3, hr3, hsk⟩ := plutusDataSetReadElems_indefinite _ _ _ _ _ _ hloop
      subst hr3
      unfold cardano_cbor_validate_end_array at hend
      dsimp only at hend
      simp only [Except.ok.injEq] at hend
      refine ⟨b3, hend.symm, ?_⟩
      rw [cborSkip_items_one]
      unfold cborSkipStep cborSkipStepG
      rw [if_pos h31, if_neg (by omega : ¬(hd / 32 = 2 ∨ hd / 32 = 3)),
          if_pos (Or.inl h4)]
      simpa using hsk
    · rw [if_neg h31] at hsa
      match hh : readHead (hd :: rest) with
      | none => rw [hh] at hsa; exact absurd hsa (by simp)
      | some (mt0, n, rest') =>
        rw [hh] at hsa
        dsimp only at hsa
        simp only [Except.ok.injEq, Prod.mk.injEq] at hsa
        obtain ⟨hlen, hr2⟩ := hsa
        subst hr2
        dsimp only at hloop
        obtain ⟨b3, hr3, hsk⟩ :=
          plutusDataSetReadElems_definite n _ rest' r1.stack [] elems r3 hloop
        subst hr3
        unfold cardano_cbor_validate_end_array at hend
        dsimp only at hend
        simp only [Except.ok.injEq] at hend
        refine ⟨b3, hend.symm, ?_⟩
        obtain ⟨hd', tl', hcons, h31', hmt', harg⟩ := readHead_inv _ _ _ _ hh
        rw [show hd' = hd by injection hcons with e1 e2; exact e1.symm]
          at h31' hmt' harg
        rw [show tl' = rest by injection hcons with e1 e2; exact e2.symm] at harg
        rw [cborSkip_items_one]
        unfold cborSkipStep cborSkipStepG
        rw [if_neg h31', harg]
        simp only [Option.some_bind]
        rw [if_neg (by omega : ¬hd / 32 ≤ 1),
            if_neg (by omega : ¬(hd / 32 = 2 ∨ hd / 32 = 3)),
            if_pos h4]
        have hle : rest'.length ≤ rest.length := readArg_length_le _ _ _ _ harg
        exact cborSkip_mono _ _ _ _ _ (by (try simp only [List.length_cons]); omega) hsk

theorem cardano_cbor_validate_tag_ok (r : CborReader) (e : Nat) (r1 : CborReader)
    (h : cardano_cbor_validate_tag r e = .ok r1) :
    ∃ rest, readHead r.bytes = some (6, e, rest) ∧ r1 = ⟨rest, r.stack⟩ := by
  unfold cardano_cbor_validate_tag cardano_cbor_reader_read_tag at h
  match hh : readHead r.bytes with
  | none => rw [hh] at h; exact absurd h (by simp)
  | some (mt, t, rest0) =>
    rw [hh] at h
    dsimp only at h
    by_cases hmt : mt = 6
    · rw [if_pos hmt] at h
      dsimp only at h
      by_cases hte : t = e
      · rw [if_pos hte] at h
        simp only [Except.ok.injEq] at h
        exact ⟨rest0, by rw [hmt, hte], h.symm⟩
      · rw [if_neg hte] at h
        exact absurd h (by simp)
    · rw [if_neg hmt] at h
      exact absurd h (by simp)

/-- **C1.**  For every byte string `b` that successfully decodes via
`cardano_plutus_data_set_from_cbor` (the decode consuming all of `b`),
re-serializing the resulting set with `cardano_plutus_data_set_to_cbor`
produces exactly the bytes `b`: the decoder captures the raw encoded data
item into the set's CBOR cache, and the encoder, whenever the cache is
present, writes the cached bytes verbatim. -/
theorem c1_plutus_data_set_reencode_bytes
    (b : List Nat) (set : cardano_plutus_data_set_t) (r' : CborReader)
    (hdec : cardano_plutus_data_set_from_cbor (mkCborReader b) = .ok (set, r'))
    (hall : r'.bytes = []) :
    cardano_plutus_data_set_to_cbor set = .ok b := by
  unfold cardano_plutus_data_set_from_cbor mkCborReader
    cardano_cbor_reader_read_encoded_value at hdec
  dsimp only at hdec
  match hskipTop : cborSkip (b.length + 1) (.items 1) b with
  | none => rw [hskipTop] at hdec; exact absurd hdec (by simp)
  | some restS =>
    rw [hskipTop] at hdec
    dsimp only at hdec
    match hpeek : peekState ⟨b, []⟩ with
    | .error e => rw [hpeek] at hdec; exact absurd hdec (by simp)
    | .ok st =>
      rw [hpeek] at hdec
      dsimp only at hdec
      -- in both branches we derive that the whole of `b` is one data item
      suffices hGlobal : cborSkip (b.length + 1) (.items 1) b = some [] by
        have hrestS : restS = [] := by
          rw [hskipTop] at hGlobal
          simpa using hGlobal
        subst hrestS
        by_cases hst : st = CborReaderState.tag
        · rw [if_pos hst] at hdec
          match hvt : cardano_cbor_validate_tag ⟨b, []⟩ CARDANO_CBOR_TAG_SET with
          | .error e => rw [hvt] at hdec; exact absurd hdec (by simp)
          | .ok r1 =>
            rw [hvt] at hdec
            dsimp only at hdec
            match hsa : cardano_cbor_reader_read_start_array r1 with
            | .error e => rw [hsa] at hdec; exact absurd hdec (by simp)
            | .ok (len, r2) =>
              rw [hsa] at hdec
              dsimp only at hdec
              match hloop : plutusDataSetReadElems (r2.bytes.length + 1) r2 [] with
              | .error e => rw [hloop] at hdec; exact absurd hdec (by simp)
              | .ok (elems, r3) =>
                rw [hloop] at hdec
                dsimp only at hdec
                match hend : cardano_cbor_validate_end_array r3 with
                | .error e => rw [hend] at hdec; exact absurd hdec (by simp)
                | .ok r4 =>
                  rw [hend] at hdec
                  dsimp only at hdec
                  simp only [Except.ok.injEq, Prod.mk.injEq] at hdec
                  rw [← hdec.1]
                  unfold cardano_plutus_data_set_to_cbor
                    cardano_cbor_writer_write_encoded
                  dsimp only
                  simp
        · rw [if_neg hst] at hdec
          dsimp only at hdec
          match hsa : cardano_cbor_reader_read_start_array ⟨b, []⟩ with
          | .error e => rw [hsa] at hdec; exact absurd hdec (by simp)
          | .ok (len, r2) =>
            rw [hsa] at hdec
            dsimp only at hdec
            match hloop : plutusDataSetReadElems (r2.bytes.length + 1) r2 [] with
            | .error e => rw [hloop] at hdec; exact absurd hdec (by simp)
            | .ok (elems, r3) =>
              rw [hloop] at hdec
              dsimp only at hdec
              match hend : cardano_cbor_validate_end_array r3 with
              | .error e => rw [hend] at hdec; exact absurd hdec (by simp)
              | .ok r4 =>
                rw [hend] at hdec
                dsimp only at hdec
                simp only [Except.ok.injEq, Prod.mk.injEq] at hdec
                rw [← hdec.1]
                unfold cardano_plutus_data_set_to_cbor
                  cardano_cbor_writer_write_encoded
                dsimp only
                simp
      -- now prove the global-skip fact
      by_cases hst : st = CborReaderState.tag
      · rw [if_pos hst] at hdec
        match hvt : cardano_cbor_validate_tag ⟨b, []⟩ CARDANO_CBOR_TAG_SET with
        | .error e => rw [hvt] at hdec; exact absurd hdec (by simp)
        | .ok r1 =>
          rw [hvt] at hdec
          dsimp only at hdec
          obtain ⟨rest0, hhT, hr1⟩ := cardano_cbor_validate_tag_ok _ _ _ hvt
          dsimp only at hhT hr1
          match hsa : cardano_cbor_reader_read_start_array r1 with
          | .error e => rw [hsa] at hdec; exact absurd hdec (by simp)
          | .ok (len, r2) =>
            rw [hsa] at hdec
            dsimp only at hdec
            match hloop : plutusDataSetReadElems (r2.bytes.length + 1) r2 [] with
            | .error e => rw [hloop] at hdec; exact absurd hdec (by simp)
            | .ok (elems, r3) =>
              rw [hloop] at hdec
              dsimp only at hdec
              match hend : cardano_cbor_validate_end_array r3 with
              | .error e => rw [hend] at hdec; exact absurd hdec (by simp)
              | .ok r4 =>
                rw [hend] at hdec
                dsimp only at hdec
                simp only [Except.ok.injEq, Prod.mk.injEq] at hdec
                obtain ⟨b4, hb4, hskB⟩ :=
                  plutusDataSetBody_skip r1 len r2 elems r3 r4 hsa hloop hend
                have hb40 : b4 = [] := by
                  have : r4.bytes = [] := by rw [hdec.2]; exact hall
                  rw [hb4] at this
                  exact this
                subst hb40
                rw [hr1] at hskB
                dsimp only at hskB
                obtain ⟨hdT, tlT, hbT, h31T, hmtT, hargT⟩ := readHead_inv _ _ _ _ hhT
                subst hbT
                rw [cborSkip_items_one]
                unfold cborSkipStep cborSkipStepG
                rw [if_neg h31T, hargT]
                simp only [Option.some_bind]
                rw [if_neg (by omega : ¬hdT / 32 ≤ 1),
                    if_neg (by omega : ¬(hdT / 32 = 2 ∨ hdT / 32 = 3)),
                    if_neg (by omega : ¬hdT / 32 = 4),
                    if_neg (by omega : ¬hdT / 32 = 5),
                    if_pos hmtT]
                have hle : rest0.length ≤ tlT.length := readArg_length_le _ _ _ _ hargT
                exact cborSkip_mono _ _ _ _ _ (by (try simp only [List.length_cons]); omega) hskB
      · rw [if_neg hst] at hdec
        dsimp only at hdec
        match hsa : cardano_cbor_reader_read_start_array ⟨b, []⟩ with
        | .error e => rw [hsa] at hdec; exact absurd hdec (by simp)
        | .ok (len, r2) =>
          rw [hsa] at hdec
          dsimp only at hdec
          match hloop : plutusDataSetReadElems (r2.bytes.length + 1) r2 [] with
          | .error e => rw [hloop] at hdec; exact absurd hdec (by simp)
          | .ok (elems, r3) =>
            rw [hloop] at hdec
            dsimp only at hdec
            match hend : cardano_cbor_validate_end_array r3 with
            | .error e => rw [hend] at hdec; exact absurd hdec (by simp)
            | .ok r4 =>
              rw [hend] at hdec
              dsimp only at hdec
              simp only [Except.ok.injEq, Prod.mk.injEq] at hdec
              obtain ⟨b4, hb4, hskB⟩ :=
                plutusDataSetBody_skip ⟨b, []⟩ len r2 elems r3 r4 hsa hloop hend
              have hb40 : b4 = [] := by
                have : r4.bytes = [] := by rw [hdec.2]; exact hall
                rw [hb4] at this
                exact this
              subst hb40
              dsimp only at hskB
              exact hskB

theorem c1_plutus_data_set_reencode_bytes_witness :
    cardano_plutus_data_set_from_cbor (mkCborReader [217, 1, 2, 130, 1, 2]) =
      .ok ({ elements := [⟨[1]⟩, ⟨[2]⟩], uses_tags := true,
             cbor_cache := some [217, 1, 2, 130, 1, 2] }, ⟨[], []⟩) ∧
    cardano_plutus_data_set_to_cbor
      { elements := [⟨[1]⟩, ⟨[2]⟩], uses_tags := true,
        cbor_cache := some [217, 1, 2, 130, 1, 2] } =
      .ok [217, 1, 2, 130, 1, 2] :=
  ⟨rfl, c1_plutus_data_set_reencode_bytes [217, 1, 2, 130, 1, 2] _ ⟨[], []⟩ rfl rfl⟩

theorem peekByte_tag (h : Nat) (h6 : h / 32 = 6) : peekByte h = .tag := by
  unfold peekByte
  rw [if_neg (by omega), if_neg (by omega), if_neg (by omega),
      if_neg (by omega), if_neg (by omega), if_neg (by omega), if_pos h6]

theorem peekState_of_readHead_tag (b : List Nat) (t : Nat) (rest : List Nat)
    (hh : readHead b = some (6, t, rest)) :
    peekState ⟨b, []⟩ = .ok .tag := by
  obtain ⟨hd, tl, hbe, h31, hmt, _⟩ := readHead_inv _ _ _ _ hh
  subst hbe
  have h255 : hd ≠ 255 := by
    intro hc
    rw [hc] at h31
    exact h31 rfl
  simp only [peekState, h255, if_false]
  rw [peekByte_tag hd hmt]

/-- Every branch of the canonical array header starts with a byte below
160, in particular different from 217 (the first byte of tag 258). -/
theorem encodeArg4_head_lt (n : Nat) :
    ∃ h t, cardano_cbor_writer_write_start_array n = h :: t ∧ h < 160 := by
  unfold cardano_cbor_writer_write_start_array encodeArg
  split_ifs with h1 h2 h3 h4
  · exact ⟨_, _, rfl, by omega⟩
  · exact ⟨_, _, rfl, by omega⟩
  · exact ⟨_, _, rfl, by omega⟩
  · exact ⟨_, _, rfl, by omega⟩
  · exact ⟨_, _, rfl, by omega⟩

/-- **C4.**  `cardano_plutus_data_set_from_cbor` records in `uses_tags`
whether the input encoding begins with CBOR tag 258, and
`cardano_plutus_data_set_to_cbor`, when no CBOR cache is attached, writes
tag 258 before the element array if and only if that flag is set. -/
theorem c4_plutus_data_set_tag258_flag :
    (∀ b set r',
      cardano_plutus_data_set_from_cbor (mkCborReader b) = .ok (set, r') →
      (set.uses_tags = true ↔ ∃ rest, readHead b = some (6, 258, rest))) ∧
    (∀ elems flag out,
      cardano_plutus_data_set_to_cbor ⟨elems, flag, none⟩ = .ok out →
      ((∃ suffix, out = cardano_cbor_writer_write_tag CARDANO_CBOR_TAG_SET ++ suffix)
        ↔ flag = true)) := by
  constructor
  · intro b set r' hdec
    unfold cardano_plutus_data_set_from_cbor mkCborReader
      cardano_cbor_reader_read_encoded_value at hdec
    dsimp only at hdec
    match hskipTop : cborSkip (b.length + 1) (.items 1) b with
    | none => rw [hskipTop] at hdec; exact absurd hdec (by simp)
    | some restS =>
      rw [hskipTop] at hdec
      dsimp only at hdec
      match hpeek : peekState ⟨b, []⟩ with
      | .error e => rw [hpeek] at hdec; exact absurd hdec (by simp)
      | .ok st =>
        rw [hpeek] at hdec
        dsimp only at hdec
        by_cases hst : st = CborReaderState.tag
        · rw [if_pos hst] at hdec
          match hvt : cardano_cbor_validate_tag ⟨b, []⟩ CARDANO_CBOR_TAG_SET with
          | .error e => rw [hvt] at hdec; exact absurd hdec (by simp)
          | .ok r1 =>
            rw [hvt] at hdec
            dsimp only at hdec
            obtain ⟨rest0, hhT, _⟩ := cardano_cbor_validate_tag_ok _ _ _ hvt
            match hsa : cardano_cbor_reader_read_start_array r1 with
            | .error e => rw [hsa] at hdec; exact absurd hdec (by simp)
            | .ok (len, r2) =>
              rw [hsa] at hdec
              dsimp only at hdec
              match hloop : plutusDataSetReadElems (r2.bytes.length + 1) r2 [] with
              | .error e => rw [hloop] at hdec; exact absurd hdec (by simp)
              | .ok (elems, r3) =>
                rw [hloop] at hdec
                dsimp only at hdec
                match hend : cardano_cbor_validate_end_array r3 with
                | .error e => rw [hend] at hdec; exact absurd hdec (by simp)
                | .ok r4 =>
                  rw [hend] at hdec
                  dsimp only at hdec
                  simp only [Except.ok.injEq, Prod.mk.injEq] at hdec
                  rw [← hdec.1]
                  dsimp only
                  simp only [hst, decide_eq_true_eq]
                  exact ⟨fun _ => ⟨rest0, hhT⟩, fun _ => trivial⟩
        · rw [if_neg hst] at hdec
          dsimp only at hdec
          match hsa : cardano_cbor_reader_read_start_array ⟨b, []⟩ with
          | .error e => rw [hsa] at hdec; exact absurd hdec (by simp)
          | .ok (len, r2) =>
            rw [hsa] at hdec
            dsimp only at hdec
            match hloop : plutusDataSetReadElems (r2.bytes.length + 1) r2 [] with
            | .error e => rw [hloop] at hdec; exact absurd hdec (by simp)
            | .ok (elems, r3) =>
              rw [hloop] at hdec
              dsimp only at hdec
              match hend : cardano_cbor_validate_end_array r3 with
              | .error e => rw [hend] at hdec; exact absurd hdec (by simp)
              | .ok r4 =>
                rw [hend] at hdec
                dsimp only at hdec
                simp only [Except.ok.injEq, Prod.mk.injEq] at hdec
                rw [← hdec.1]
                dsimp only
                constructor
                · intro hdec2
                  exact absurd (of_decide_eq_true hdec2) hst
                · rintro ⟨rest, hh⟩
                  rw [peekState_of_readHead_tag b 258 rest hh] at hpeek
                  simp only [Except.ok.injEq] at hpeek
                  exact absurd hpeek.symm hst
  · intro elems flag out hout
    unfold cardano_plutus_data_set_to_cbor at hout
    dsimp only at hout
    simp only [Except.ok.injEq] at hout
    cases flag with
    | true =>
      rw [if_pos rfl] at hout
      constructor
      · intro _
        rfl
      · intro _
        exact ⟨_, by rw [← hout, List.append_assoc]⟩
    | false =>
      rw [if_neg (by decide), List.nil_append] at hout
      constructor
      · rintro ⟨suffix, hsuf⟩
        rw [← hout] at hsuf
        obtain ⟨hh, tt, hcons, hlt⟩ :=
          encodeArg4_head_lt elems.length
        rw [hcons] at hsuf
        have heads : hh :: (tt ++ (elems.map cardano_plutus_data_to_cbor).flatten) =
            217 :: (1 :: 2 :: suffix) := by
          simpa [cardano_cbor_writer_write_tag, CARDANO_CBOR_TAG_SET,
            cardano_cbor_writer_write_start_array, encodeArg] using hsuf
        have hhead : hh = 217 := by injection heads
        exact absurd hhead (by omega)
      · intro hc
        exact Bool.noConfusion hc

/-- Witness for C4 at concrete inputs: the decoded set of
`D9 0102 82 01 02` has the tag flag set (and the raw bytes do start with
tag 258), and a cache-free set with the flag set writes the tag bytes. -/
theorem c4_plutus_data_set_tag258_flag_witness :
    (∃ rest, readHead [217, 1, 2, 130, 1, 2] = some (6, 258, rest)) ∧
    (∃ suffix, [217, 1, 2, 129, 1] =
      cardano_cbor_writer_write_tag CARDANO_CBOR_TAG_SET ++ suffix) :=
  ⟨(c4_plutus_data_set_tag258_flag.1 [217, 1, 2, 130, 1, 2]
      { elements := [⟨[1]⟩, ⟨[2]⟩], uses_tags := true,
        cbor_cache := some [217, 1, 2, 130, 1, 2] } ⟨[], []⟩ rfl).mp rfl,
   (c4_plutus_data_set_tag258_flag.2 [⟨[1]⟩] true [217, 1, 2, 129, 1] rfl).mpr rfl⟩

/-- **C10.**  Indexing into a plutus data set is guarded:
`cardano_plutus_data_set_get` returns the out-of-bounds-read error for
every index at or beyond the length, and the stored element below it. -/
theorem c10_plutus_data_set_get_bounds
    (s : cardano_plutus_data_set_t) (i : Nat) :
    (cardano_plutus_data_set_get_length s ≤ i →
      cardano_plutus_data_set_get s i = .error .outOfBoundsMemoryRead) ∧
    (∀ h : i < cardano_plutus_data_set_get_length s,
      cardano_plutus_data_set_get s i = .ok (s.elements.get ⟨i, h⟩)) := by
  constructor
  · intro hle
    unfold cardano_plutus_data_set_get
    rw [List.get?_eq_none.mpr hle]
  · intro h
    unfold cardano_plutus_data_set_get
    rw [List.get?_eq_get h]

theorem c10_plutus_data_set_get_bounds_witness :
    cardano_plutus_data_set_get ⟨[⟨[1]⟩], true, none⟩ 5 =
      .error .outOfBoundsMemoryRead ∧
    cardano_plutus_data_set_get ⟨[⟨[1]⟩], true, none⟩ 0 = .ok ⟨[1]⟩ :=
  ⟨(c10_plutus_data_set_get_bounds ⟨[⟨[1]⟩], true, none⟩ 5).1 (by decide),
   (c10_plutus_data_set_get_bounds ⟨[⟨[1]⟩], true, none⟩ 0).2 (by decide)⟩

/-! ## Credentials, anchors and the register-DRep certificate

`register_drep_cert.c` is under `src/`; the credential and anchor codecs
are not and are modelled from the spec (§3: `Credential` = tagged
{key-hash, script-hash} with a 28-byte Blake2b-224 hash, `Anchor` =
(url, 32-byte hash); scenarios S1/S2 show the encodings
`[type, hash]` and `[url, hash]`). -/

inductive CredentialType where
  | keyHash
  | scriptHash
  deriving DecidableEq, Repr

def credentialTypeToNat : CredentialType → Nat
  | .keyHash => 0
  | .scriptHash => 1

/-- Modelled from the spec: `cardano_credential_t`. -/
structure cardano_credential_t where
  cred_type : CredentialType
  hash : List Nat
  deriving DecidableEq, Repr

/-- Modelled from the spec: `cardano_credential_to_cbor` writes
`[type, 28-byte hash]`. -/
def cardano_credential_to_cbor (c : cardano_credential_t) : List Nat :=
  cardano_cbor_writer_write_start_array 2 ++
  cardano_cbor_writer_write_uint (credentialTypeToNat c.cred_type) ++
  cardano_cbor_writer_write_bytestring c.hash

/-- Modelled from the spec: `cardano_credential_from_cbor`. -/
def cardano_credential_from_cbor (r : CborReader) :
    Except CardanoError (cardano_credential_t × CborReader) :=
  match cardano_cbor_validate_array_of_n_elements r 2 with
  | .error e => .error e
  | .ok r1 =>
    match cardano_cbor_reader_read_uint r1 with
    | .error e => .error e
    | .ok (t, r2) =>
      if t = 0 ∨ t = 1 then
        match cardano_cbor_reader_read_bytestring r2 with
        | .error e => .error e
        | .ok (hash, r3) =>
          if hash.length = 28 then
            match cardano_cbor_validate_end_array r3 with
            | .error e => .error e
            | .ok r4 =>
              .ok (⟨if t = 0 then .keyHash else .scriptHash, hash⟩, r4)
          else .error .invalidBlake2bHashSize
      else .error .invalidCborValue

/-- Modelled from the spec: `cardano_anchor_t` = (url, 32-byte hash). -/
structure cardano_anchor_t where
  url : List Nat
  hash : List Nat
  deriving DecidableEq, Repr

/-- Modelled from the spec: `cardano_anchor_to_cbor` writes `[url, hash]`. -/
def cardano_anchor_to_cbor (a : cardano_anchor_t) : List Nat :=
  cardano_cbor_writer_write_start_array 2 ++
  cardano_cbor_writer_write_textstring a.url ++
  cardano_cbor_writer_write_bytestring a.hash

/-- Modelled from the spec: `cardano_anchor_from_cbor`. -/
def cardano_anchor_from_cbor (r : CborReader) :
    Except CardanoError (cardano_anchor_t × CborReader) :=
  match cardano_cbor_validate_array_of_n_elements r 2 with
  | .error e => .error e
  | .ok r1 =>
    match cardano_cbor_reader_read_textstring r1 with
    | .error e => .error e
    | .ok (url, r2) =>
      match cardano_cbor_reader_read_bytestring r2 with
      | .error e => .error e
      | .ok (hash, r3) =>
        if hash.length = 32 then
          match cardano_cbor_validate_end_array r3 with
          | .error e => .error e
          | .ok r4 => .ok (⟨url, hash⟩, r4)
        else .error .invalidBlake2bHashSize

/-- `CARDANO_CERT_TYPE_DREP_REGISTRATION` (cert_type.h is not under
`src/`; the value cancels in the round-trip). -/
def CARDANO_CERT_TYPE_DREP_REGISTRATION : Nat := 16

/-- `cardano_register_drep_cert_t` (register_drep_cert.c): credential,
deposit (uint64) and optional anchor. -/
structure cardano_register_drep_cert_t where
  credential : cardano_credential_t
  deposit : Nat
  anchor : Option cardano_anchor_t
  deriving DecidableEq, Repr

/-- `cardano_register_drep_cert_to_cbor`: array(4) of type id, credential,
deposit, anchor-or-null. -/
def cardano_register_drep_cert_to_cbor
    (cert : cardano_register_drep_cert_t) : List Nat :=
  cardano_cbor_writer_write_start_array 4 ++
  cardano_cbor_writer_write_uint CARDANO_CERT_TYPE_DREP_REGISTRATION ++
  cardano_credential_to_cbor cert.credential ++
  cardano_cbor_writer_write_uint cert.deposit ++
  (match cert.anchor with
   | some a => cardano_anchor_to_cbor a
   | none => cardano_cbor_writer_write_null)

/-- `cardano_register_drep_cert_from_cbor`: validates the 4-element array
and the type id, reads the credential and the deposit, reads the anchor
unless the next item is null, and validates the end of the array. -/
def cardano_register_drep_cert_from_cbor (r : CborReader) :
    Except CardanoError (cardano_register_drep_cert_t × CborReader) :=
  match cardano_cbor_validate_array_of_n_elements r 4 with
  | .error e => .error e
  | .ok r1 =>
    match cardano_cbor_validate_enum_value r1 CARDANO_CERT_TYPE_DREP_REGISTRATION with
    | .error e => .error e
    | .ok (_, r2) =>
      match cardano_credential_from_cbor r2 with
      | .error e => .error e
      | .ok (credential, r3) =>
        match cardano_cbor_reader_read_uint r3 with
        | .error e => .error e
        | .ok (deposit, r4) =>
          match peekState r4 with
          | .error e => .error e
          | .ok state =>
            match
              (if state = CborReaderState.null then
                match cardano_cbor_reader_read_null r4 with
                | .error e => .error e
                | .ok r5 => .ok (none, r5)
              else
                match cardano_anchor_from_cbor r4 with
                | .error e => .error e
                | .ok (a, r5) => .ok (some a, r5) :
                Except CardanoError (Option cardano_anchor_t × CborReader)) with
            | .error e => .error e
            | .ok (anchor, r5) =>
              match cardano_cbor_validate_end_array r5 with
              | .error e => .error e
              | .ok r6 => .ok (⟨credential, deposit, anchor⟩, r6)

/-! ### Reading back what the writer wrote -/

theorem encodeArg_head (mt n : Nat) (hmt : mt ≤ 7) :
    ∃ h t, encodeArg mt n = h :: t ∧ h / 32 = mt ∧ h % 32 ≠ 31 := by
  unfold encodeArg
  split_ifs with h1 h2 h3 h4
  · exact ⟨_, _, rfl, by omega, by omega⟩
  · exact ⟨_, _, rfl, by omega, by omega⟩
  · exact ⟨_, _, rfl, by omega, by omega⟩
  · exact ⟨_, _, rfl, by omega, by omega⟩
  · exact ⟨_, _, rfl, by omega, by omega⟩

theorem read_uint_write (n : Nat) (s : List Nat) (stk : List (Option Nat))
    (hn : n < 18446744073709551616) :
    cardano_cbor_reader_read_uint ⟨cardano_cbor_writer_write_uint n ++ s, stk⟩ =
      .ok (n, ⟨s, completeItem stk⟩) := by
  unfold cardano_cbor_reader_read_uint cardano_cbor_writer_write_uint
  dsimp only
  rw [readHead_encodeArg 0 n s (by omega) hn]
  simp

theorem validate_enum_write (e : Nat) (s : List Nat) (stk : List (Option Nat))
    (he : e < 18446744073709551616) :
    cardano_cbor_validate_enum_value ⟨cardano_cbor_writer_write_uint e ++ s, stk⟩ e =
      .ok (e, ⟨s, completeItem stk⟩) := by
  unfold cardano_cbor_validate_enum_value
  rw [read_uint_write e s stk he]
  simp

theorem read_start_array_write (n : Nat) (s : List Nat) (stk : List (Option Nat))
    (hn : n < 18446744073709551616) :
    cardano_cbor_reader_read_start_array
        ⟨cardano_cbor_writer_write_start_array n ++ s, stk⟩ =
      .ok (some n, ⟨s, some n :: stk⟩) := by
  obtain ⟨h, t, hc, hdiv, hmod⟩ := encodeArg_head 4 n (by omega)
  unfold cardano_cbor_reader_read_start_array cardano_cbor_writer_write_start_array
  dsimp only
  rw [hc, List.cons_append]
  dsimp only
  rw [if_pos hdiv, if_neg hmod, ← List.cons_append, ← hc,
      readHead_encodeArg 4 n s (by omega) hn]

theorem validate_array_write (n : Nat) (s : List Nat) (stk : List (Option Nat))
    (hn : n < 18446744073709551616) :
    cardano_cbor_validate_array_of_n_elements
        ⟨cardano_cbor_writer_write_start_array n ++ s, stk⟩ n =
      .ok ⟨s, some n :: stk⟩ := by
  unfold cardano_cbor_validate_array_of_n_elements
  rw [read_start_array_write n s stk hn]
  simp

theorem read_bytestring_write (bs : List Nat) (s : List Nat)
    (stk : List (Option Nat)) (hlen : bs.length < 18446744073709551616) :
    cardano_cbor_reader_read_bytestring
        ⟨cardano_cbor_writer_write_bytestring bs ++ s, stk⟩ =
      .ok (bs, ⟨s, completeItem stk⟩) := by
  obtain ⟨h, t, hc, hdiv, hmod⟩ := encodeArg_head 2 bs.length (by omega)
  unfold cardano_cbor_reader_read_bytestring cardano_cbor_writer_write_bytestring
  rw [List.append_assoc]
  dsimp only
  rw [hc, List.cons_append]
  dsimp only
  rw [if_pos hdiv, if_neg hmod, ← List.cons_append, ← hc,
      readHead_encodeArg 2 bs.length (bs ++ s) (by omega) hlen]
  dsimp only
  rw [if_pos (show bs.length ≤ (bs ++ s).length by simp),
      List.take_left, List.drop_left]

theorem read_textstring_write (ts : List Nat) (s : List Nat)
    (stk : List (Option Nat)) (hlen : ts.length < 18446744073709551616) :
    cardano_cbor_reader_read_textstring
        ⟨cardano_cbor_writer_write_textstring ts ++ s, stk⟩ =
      .ok (ts, ⟨s, completeItem stk⟩) := by
  obtain ⟨h, t, hc, hdiv, hmod⟩ := encodeArg_head 3 ts.length (by omega)
  unfold cardano_cbor_reader_read_textstring cardano_cbor_writer_write_textstring
  rw [List.append_assoc]
  dsimp only
  rw [hc, List.cons_append]
  dsimp only
  rw [if_pos hdiv, if_neg hmod, ← List.cons_append, ← hc,
      readHead_encodeArg 3 ts.length (ts ++ s) (by omega) hlen]
  dsimp only
  rw [if_pos (show ts.length ≤ (ts ++ s).length by simp),
      List.take_left, List.drop_left]

theorem read_null_write (s : List Nat) (stk : List (Option Nat)) :
    cardano_cbor_reader_read_null ⟨cardano_cbor_writer_write_null ++ s, stk⟩ =
      .ok ⟨s, completeItem stk⟩ := rfl

theorem validate_end_array_some_zero (b : List Nat) (stk : List (Option Nat)) :
    cardano_cbor_validate_end_array ⟨b, some 0 :: stk⟩ =
      .ok ⟨b, completeItem stk⟩ := rfl

theorem peekState_write_start_array (n : Nat) (s : List Nat) (k : Nat)
    (stk : List (Option Nat)) (hn : n < 18446744073709551616) :
    peekState ⟨cardano_cbor_writer_write_start_array n ++ s, some (k + 1) :: stk⟩ =
      .ok .startArray := by
  obtain ⟨h, t, hc, hdiv, hmod⟩ := encodeArg_head 4 n (by omega)
  unfold cardano_cbor_writer_write_start_array
  rw [hc, List.cons_append]
  have h255 : h ≠ 255 := by omega
  simp only [peekState, h255, if_false]
  unfold peekByte
  rw [if_neg (by omega), if_neg (by omega), if_neg (by omega),
      if_neg (by omega), if_pos hdiv]

theorem peekState_write_null (s : List Nat) (k : Nat)
    (stk : List (Option Nat)) :
    peekState ⟨cardano_cbor_writer_write_null ++ s, some (k + 1) :: stk⟩ =
      .ok .null := by
  show peekState ⟨246 :: s, some (k + 1) :: stk⟩ = .ok .null
  simp only [peekState, show (246 : Nat) ≠ 255 by decide, if_false]
  rfl

theorem credential_roundtrip (c : cardano_credential_t) (s : List Nat)
    (stk : List (Option Nat)) (hlen : c.hash.length = 28) :
    cardano_credential_from_cbor ⟨cardano_credential_to_cbor c ++ s, stk⟩ =
      .ok (c, ⟨s, completeItem stk⟩) := by
  obtain ⟨ct, hash⟩ := c
  dsimp only at hlen
  unfold cardano_credential_to_cbor cardano_credential_from_cbor
  dsimp only
  simp only [List.append_assoc]
  cases ct with
  | keyHash =>
    simp only [credentialTypeToNat]
    rw [validate_array_write 2 _ _ (by omega)]
    dsimp only
    rw [read_uint_write 0 _ _ (by omega)]
    dsimp only
    rw [if_pos (Or.inl rfl)]
    simp only [completeItem_def_succ]
    rw [read_bytestring_write hash _ _ (by omega)]
    dsimp only
    rw [if_pos hlen]
    simp only [completeItem_def_succ]
    rw [validate_end_array_some_zero]
    simp
  | scriptHash =>
    simp only [credentialTypeToNat]
    rw [validate_array_write 2 _ _ (by omega)]
    dsimp only
    rw [read_uint_write 1 _ _ (by omega)]
    dsimp only
    rw [if_pos (Or.inr rfl)]
    simp only [completeItem_def_succ]
    rw [read_bytestring_write hash _ _ (by omega)]
    dsimp only
    rw [if_pos hlen]
    simp only [completeItem_def_succ]
    rw [validate_end_array_some_zero]
    simp

theorem anchor_roundtrip (a : cardano_anchor_t) (s : List Nat)
    (stk : List (Option Nat)) (hlen : a.hash.length = 32)
    (hurl : a.url.length < 18446744073709551616) :
    cardano_anchor_from_cbor ⟨cardano_anchor_to_cbor a ++ s, stk⟩ =
      .ok (a, ⟨s, completeItem stk⟩) := by
  obtain ⟨url, hash⟩ := a
  dsimp only at hlen hurl
  unfold cardano_anchor_to_cbor cardano_anchor_from_cbor
  dsimp only
  simp only [List.append_assoc]
  rw [validate_array_write 2 _ _ (by omega)]
  dsimp only
  rw [read_textstring_write url _ _ hurl]
  dsimp only
  simp only [completeItem_def_succ]
  rw [read_bytestring_write hash _ _ (by omega)]
  dsimp only
  rw [if_pos hlen]
  simp only [completeItem_def_succ]
  rw [validate_end_array_some_zero]

theorem peekState_anchor (a : cardano_anchor_t) (s : List Nat) (k : Nat)
    (stk : List (Option Nat)) :
    peekState ⟨cardano_anchor_to_cbor a ++ s, some (k + 1) :: stk⟩ =
      .ok .startArray := by
  unfold cardano_anchor_to_cbor
  simp only [List.append_assoc]
  exact peekState_write_start_array 2 _ k stk (by omega)

theorem register_drep_cert_roundtrip_gen
    (cert : cardano_register_drep_cert_t) (s : List Nat)
    (stk : List (Option Nat))
    (hhash : cert.credential.hash.length = 28)
    (hdep : cert.deposit < 18446744073709551616)
    (hanchor : ∀ a, cert.anchor = some a →
      a.hash.length = 32 ∧ a.url.length < 18446744073709551616) :
    cardano_register_drep_cert_from_cbor
        ⟨cardano_register_drep_cert_to_cbor cert ++ s, stk⟩ =
      .ok (cert, ⟨s, completeItem stk⟩) := by
  obtain ⟨cred, dep, anch⟩ := cert
  dsimp only at hhash hdep hanchor
  unfold cardano_register_drep_cert_to_cbor cardano_register_drep_cert_from_cbor
  dsimp only
  simp only [List.append_assoc]
  rw [validate_array_write 4 _ _ (by omega)]
  dsimp only
  rw [validate_enum_write _ _ _ (by norm_num [CARDANO_CERT_TYPE_DREP_REGISTRATION])]
  dsimp only
  simp only [completeItem_def_succ]
  rw [credential_roundtrip cred _ _ hhash]
  dsimp only
  simp only [completeItem_def_succ]
  rw [read_uint_write dep _ _ hdep]
  dsimp only
  simp only [completeItem_def_succ]
  cases anch with
  | none =>
    rw [peekState_write_null]
    dsimp only
    rw [if_pos rfl, read_null_write]
    dsimp only
    simp only [completeItem_def_succ]
    rw [validate_end_array_some_zero]
  | some a =>
    obtain ⟨ha32, haurl⟩ := hanchor a rfl
    rw [peekState_anchor]
    dsimp only
    rw [if_neg (by simp : ¬(CborReaderState.startArray = CborReaderState.null))]
    rw [anchor_roundtrip a _ _ ha32 haurl]
    dsimp only
    simp only [completeItem_def_succ]
    rw [validate_end_array_some_zero]

/-- **C2.**  For every register-DRep certificate built from a credential
(28-byte hash), a deposit and an optional anchor (32-byte hash),
serializing with `cardano_register_drep_cert_to_cbor` and deserializing
with `cardano_register_drep_cert_from_cbor` yields a structurally equal
certificate; an absent anchor is encoded as CBOR null. -/
theorem c2_register_drep_cert_roundtrip (cert : cardano_register_drep_cert_t)
    (hhash : cert.credential.hash.length = 28)
    (hdep : cert.deposit < 18446744073709551616)
    (hanchor : ∀ a, cert.anchor = some a →
      a.hash.length = 32 ∧ a.url.length < 18446744073709551616) :
    cardano_register_drep_cert_from_cbor
        (mkCborReader (cardano_register_drep_cert_to_cbor cert)) =
      .ok (cert, ⟨[], []⟩) := by
  have h := register_drep_cert_roundtrip_gen cert [] [] hhash hdep hanchor
  rw [List.append_nil] at h
  exact h

theorem c2_register_drep_cert_roundtrip_witness :
    cardano_register_drep_cert_from_cbor
        (mkCborReader (cardano_register_drep_cert_to_cbor
          ⟨⟨.keyHash, List.replicate 28 0⟩, 2000000,
           some ⟨[104, 105], List.replicate 32 0⟩⟩)) =
      .ok (⟨⟨.keyHash, List.replicate 28 0⟩, 2000000,
            some ⟨[104, 105], List.replicate 32 0⟩⟩, ⟨[], []⟩) :=
  c2_register_drep_cert_roundtrip _ (by decide) (by decide)
    (by
      intro a ha
      injection ha with h
      rw [← h]
      exact ⟨by decide, by decide⟩)

/-! ## Metadatum

`metadatum.c` is under `src/`.  The metadatum is a tagged sum over map,
list, integer, bytes and text; map/list containers (`metadatum_map.c`,
`metadatum_list.c`) and the big-integer helpers are not under `src/` and
are modelled from the spec. -/

inductive cardano_metadatum_t where
  | map : List (cardano_metadatum_t × cardano_metadatum_t) → cardano_metadatum_t
  | list : List cardano_metadatum_t → cardano_metadatum_t
  | integer : Int → cardano_metadatum_t
  | bytes : List Nat → cardano_metadatum_t
  | text : List Nat → cardano_metadatum_t

mutual

/-- Structural equality on metadatum trees (auxiliary; backs
`cardano_metadatum_equals`). -/
def mdBeq : cardano_metadatum_t → cardano_metadatum_t → Bool
  | .map a, .map b => mdPairsBeq a b
  | .list a, .list b => mdListBeq a b
  | .integer a, .integer b => a == b
  | .bytes a, .bytes b => a == b
  | .text a, .text b => a == b
  | _, _ => false

def mdListBeq : List cardano_metadatum_t → List cardano_metadatum_t → Bool
  | [], [] => true
  | a :: as_, b :: bs => mdBeq a b && mdListBeq as_ bs
  | _, _ => false

def mdPairsBeq :
    List (cardano_metadatum_t × cardano_metadatum_t) →
    List (cardano_metadatum_t × cardano_metadatum_t) → Bool
  | [], [] => true
  | (k, v) :: as_, (k', v') :: bs => mdBeq k k' && mdBeq v v' && mdPairsBeq as_ bs
  | _, _ => false

end

/-- `cardano_cbor_writer_write_start_map` (major type 5). -/
def cardano_cbor_writer_write_start_map (n : Nat) : List Nat := encodeArg 5 n

/-- `cardano_cbor_reader_read_start_map` (major type 5): a definite map
with `n` entries opens a frame with `2 * n` pending data items. -/
def cardano_cbor_reader_read_start_map (r : CborReader) :
    Except CardanoError (Option Nat × CborReader) :=
  match r.bytes with
  | [] => .error .errorDecoding
  | h :: rest =>
    if h / 32 = 5 then
      if h % 32 = 31 then .ok (none, ⟨rest, none :: r.stack⟩)
      else
        match readHead r.bytes with
        | some (_, n, rest') => .ok (some n, ⟨rest', some (2 * n) :: r.stack⟩)
        | none => .error .errorDecoding
    else .error .unexpectedCborType

/-- Big-endian magnitude bytes of a natural number (auxiliary, modelled
from the spec's big-integer encoding). -/
def natBeBytesAux : Nat → Nat → List Nat
  | 0, _ => []
  | fuel + 1, n => if n = 0 then [] else natBeBytesAux fuel (n / 256) ++ [n % 256]

def natBeBytes (n : Nat) : List Nat := natBeBytesAux (n + 1) n

mutual

/-- `cardano_metadatum_to_cbor` (metadatum.c): the 64-byte limits on bytes
and text are enforced here, on write.  The integer encoding (modelled from
the spec: bigint.c is not under `src/`) chooses the narrowest form. -/
def cardano_metadatum_to_cbor :
    cardano_metadatum_t → Except CardanoError (List Nat)
  | .map pairs =>
    match metadatumPairsToCbor pairs with
    | .error e => .error e
    | .ok body => .ok (cardano_cbor_writer_write_start_map pairs.length ++ body)
  | .list items =>
    match metadatumItemsToCbor items with
    | .error e => .error e
    | .ok body => .ok (cardano_cbor_writer_write_start_array items.length ++ body)
  | .integer i =>
    if 0 ≤ i ∧ i < 18446744073709551616 then
      .ok (cardano_cbor_writer_write_uint i.toNat)
    else if -18446744073709551616 ≤ i ∧ i < 0 then
      .ok (encodeArg 1 (-1 - i).toNat)
    else if 0 ≤ i then
      .ok (cardano_cbor_writer_write_tag 2 ++
           cardano_cbor_writer_write_bytestring (natBeBytes i.toNat))
    else
      .ok (cardano_cbor_writer_write_tag 3 ++
           cardano_cbor_writer_write_bytestring (natBeBytes (-i).toNat))
  | .bytes bs =>
    if 64 < bs.length then .error .invalidMetadatumBoundedBytesSize
    else .ok (cardano_cbor_writer_write_bytestring bs)
  | .text ts =>
    if 64 < ts.length then .error .invalidMetadatumTextStringSize
    else .ok (cardano_cbor_writer_write_textstring ts)

/-- Modelled from the spec: `cardano_metadatum_list_to_cbor` element
payload. -/
def metadatumItemsToCbor :
    List cardano_metadatum_t → Except CardanoError (List Nat)
  | [] => .ok []
  | m :: rest =>
    match cardano_metadatum_to_cbor m with
    | .error e => .error e
    | .ok bm =>
      match metadatumItemsToCbor rest with
      | .error e => .error e
      | .ok brest => .ok (bm ++ brest)

/-- Modelled from the spec: `cardano_metadatum_map_to_cbor` entry
payload. -/
def metadatumPairsToCbor :
    List (cardano_metadatum_t × cardano_metadatum_t) →
    Except CardanoError (List Nat)
  | [] => .ok []
  | (k, v) :: rest =>
    match cardano_metadatum_to_cbor k with
    | .error e => .error e
    | .ok bk =>
      match cardano_metadatum_to_cbor v with
      | .error e => .error e
      | .ok bv =>
        match metadatumPairsToCbor rest with
        | .error e => .error e
        | .ok brest => .ok (bk ++ bv ++ brest)

end

/-- Modelled from the spec: the element loop of
`cardano_metadatum_list_from_cbor` (metadatum_list.c is not under
`src/`). -/
def metadatumListLoop
    (recv : CborReader → Except CardanoError (cardano_metadatum_t × CborReader)) :
    Nat → CborReader → List cardano_metadatum_t →
    Except CardanoError (List cardano_metadatum_t × CborReader)
  | 0, _, _ => .error .errorDecoding
  | fuel + 1, r, acc =>
    match peekState r with
    | .error e => .error e
    | .ok st =>
      if st = .endArray then .ok (acc.reverse, r)
      else
        match recv r with
        | .error e => .error e
        | .ok (m, r') => metadatumListLoop recv fuel r' (m :: acc)

/-- Modelled from the spec: the entry loop of
`cardano_metadatum_map_from_cbor`; duplicate keys are rejected with a
decoding error (spec §3, §8.3). -/
def metadatumMapLoop
    (recv : CborReader → Except CardanoError (cardano_metadatum_t × CborReader)) :
    Nat → CborReader → List (cardano_metadatum_t × cardano_metadatum_t) →
    Except CardanoError
      (List (cardano_metadatum_t × cardano_metadatum_t) × CborReader)
  | 0, _, _ => .error .errorDecoding
  | fuel + 1, r, acc =>
    match peekState r with
    | .error e => .error e
    | .ok st =>
      if st = .endArray then .ok (acc.reverse, r)
      else
        match recv r with
        | .error e => .error e
        | .ok (key, r') =>
          match recv r' with
          | .error e => .error e
          | .ok (value, r'') =>
            if acc.any (fun p => mdBeq p.1 key) then .error .errorDecoding
            else metadatumMapLoop recv fuel r'' ((key, value) :: acc)

/-- `cardano_metadatum_from_cbor` (metadatum.c), fuel-indexed: dispatch on
the reader's peeked state; no size limits are applied on read. -/
def metadatumFromCborFuel :
    Nat → CborReader → Except CardanoError (cardano_metadatum_t × CborReader)
  | 0, _ => .error .errorDecoding
  | fuel + 1, r =>
    match peekState r with
    | .error e => .error e
    | .ok st =>
      if st = .tag then
        match cardano_cbor_reader_peek_tag r with
        | .error e => .error e
        | .ok t =>
          if t = 2 ∨ t = 3 then
            match cardano_cbor_reader_read_bigint r with
            | .error e => .error e
            | .ok (i, r') => .ok (.integer i, r')
          else .error .errorDecoding
      else if st = .unsignedInteger then
        match cardano_cbor_reader_read_uint r with
        | .error e => .error e
        | .ok (n, r') => .ok (.integer (n : Int), r')
      else if st = .negativeInteger then
        match cardano_cbor_reader_read_int r with
        | .error e => .error e
        | .ok (i, r') => .ok (.integer i, r')
      else if st = .bytestring ∨ st = .startIndefiniteLengthBytestring then
        match cardano_cbor_reader_read_bytestring r with
        | .error e => .error e
        | .ok (bs, r') => .ok (.bytes bs, r')
      else if st = .textstring ∨ st = .startIndefiniteLengthTextstring then
        match cardano_cbor_reader_read_textstring r with
        | .error e => .error e
        | .ok (ts, r') => .ok (.text ts, r')
      else if st = .startArray then
        match cardano_cbor_reader_read_start_array r with
        | .error e => .error e
        | .ok (_, r1) =>
          match metadatumListLoop (metadatumFromCborFuel fuel) fuel r1 [] with
          | .error e => .error e
          | .ok (items, r2) =>
            match cardano_cbor_validate_end_array r2 with
            | .error e => .error e
            | .ok r3 => .ok (.list items, r3)
      else if st = .startMap then
        match cardano_cbor_reader_read_start_map r with
        | .error e => .error e
        | .ok (_, r1) =>
          match metadatumMapLoop (metadatumFromCborFuel fuel) fuel r1 [] with
          | .error e => .error e
          | .ok (pairs, r2) =>
            match cardano_cbor_validate_end_array r2 with
            | .error e => .error e
            | .ok r3 => .ok (.map pairs, r3)
      else .error .errorDecoding

/-- `cardano_metadatum_from_cbor`. -/
def cardano_metadatum_from_cbor (r : CborReader) :
    Except CardanoError (cardano_metadatum_t × CborReader) :=
  metadatumFromCborFuel (r.bytes.length + 1) r

theorem peekState_write_bytestring (bs : List Nat) (s : List Nat)
    (hlen : bs.length < 18446744073709551616) :
    peekState ⟨cardano_cbor_writer_write_bytestring bs ++ s, []⟩ =
      .ok .bytestring := by
  obtain ⟨h, t, hc, hdiv, hmod⟩ := encodeArg_head 2 bs.length (by omega)
  unfold cardano_cbor_writer_write_bytestring
  rw [hc]
  simp only [List.cons_append, List.append_assoc]
  have h255 : h ≠ 255 := by omega
  simp only [peekState, h255, if_false]
  unfold peekByte
  rw [if_neg (by omega), if_neg (by omega), if_pos hdiv, if_neg hmod]

theorem peekState_write_textstring (ts : List Nat) (s : List Nat)
    (hlen : ts.length < 18446744073709551616) :
    peekState ⟨cardano_cbor_writer_write_textstring ts ++ s, []⟩ =
      .ok .textstring := by
  obtain ⟨h, t, hc, hdiv, hmod⟩ := encodeArg_head 3 ts.length (by omega)
  unfold cardano_cbor_writer_write_textstring
  rw [hc]
  simp only [List.cons_append, List.append_assoc]
  have h255 : h ≠ 255 := by omega
  simp only [peekState, h255, if_false]
  unfold peekByte
  rw [if_neg (by omega), if_neg (by omega), if_neg (by omega), if_pos hdiv,
      if_neg hmod]

/-- C3: `cardano_metadatum_to_cbor` rejects byte strings longer than 64
bytes with `CARDANO_ERROR_INVALID_METADATUM_BOUNDED_BYTES_SIZE` and text
strings longer than 64 bytes with
`CARDANO_ERROR_INVALID_METADATUM_TEXT_STRING_SIZE`, while
`cardano_metadatum_from_cbor` imposes no such limit: it accepts a
definite byte or text string of any length below 2^64, in particular
longer than 64 bytes. -/
theorem c3_metadatum_size_limits :
    (∀ bs : List Nat, 64 < bs.length →
      cardano_metadatum_to_cbor (.bytes bs) =
        .error .invalidMetadatumBoundedBytesSize) ∧
    (∀ ts : List Nat, 64 < ts.length →
      cardano_metadatum_to_cbor (.text ts) =
        .error .invalidMetadatumTextStringSize) ∧
    (∀ bs : List Nat, bs.length < 18446744073709551616 →
      cardano_metadatum_from_cbor
          (mkCborReader (cardano_cbor_writer_write_bytestring bs)) =
        .ok (.bytes bs, ⟨[], []⟩)) ∧
    (∀ ts : List Nat, ts.length < 18446744073709551616 →
      cardano_metadatum_from_cbor
          (mkCborReader (cardano_cbor_writer_write_textstring ts)) =
        .ok (.text ts, ⟨[], []⟩)) := by
  refine ⟨?_, ?_, ?_, ?_⟩
  · intro bs hlen
    simp only [cardano_metadatum_to_cbor]
    rw [if_pos hlen]
  · intro ts hlen
    simp only [cardano_metadatum_to_cbor]
    rw [if_pos hlen]
  · intro bs hlen
    unfold cardano_metadatum_from_cbor mkCborReader
    dsimp only
    rw [show cardano_cbor_writer_write_bytestring bs =
          cardano_cbor_writer_write_bytestring bs ++ [] from
        (List.append_nil _).symm]
    simp only [metadatumFromCborFuel]
    rw [peekState_write_bytestring bs [] hlen]
    dsimp only
    rw [if_neg (by intro hc; exact CborReaderState.noConfusion hc),
        if_neg (by intro hc; exact CborReaderState.noConfusion hc),
        if_neg (by intro hc; exact CborReaderState.noConfusion hc),
        if_pos (Or.inl rfl)]
    rw [read_bytestring_write bs [] [] hlen]
    rfl
  · intro ts hlen
    unfold cardano_metadatum_from_cbor mkCborReader
    dsimp only
    rw [show cardano_cbor_writer_write_textstring ts =
          cardano_cbor_writer_write_textstring ts ++ [] from
        (List.append_nil _).symm]
    simp only [metadatumFromCborFuel]
    rw [peekState_write_textstring ts [] hlen]
    dsimp only
    rw [if_neg (by intro hc; exact CborReaderState.noConfusion hc),
        if_neg (by intro hc; exact CborReaderState.noConfusion hc),
        if_neg (by intro hc; exact CborReaderState.noConfusion hc),
        if_neg (by rintro (hc | hc) <;> exact CborReaderState.noConfusion hc),
        if_pos (Or.inl rfl)]
    rw [read_textstring_write ts [] [] hlen]
    rfl

theorem c3_metadatum_size_limits_witness :
    cardano_metadatum_to_cbor (.bytes (List.replicate 65 1)) =
        .error .invalidMetadatumBoundedBytesSize ∧
    cardano_metadatum_to_cbor (.text (List.replicate 65 1)) =
        .error .invalidMetadatumTextStringSize ∧
    cardano_metadatum_from_cbor
        (mkCborReader
          (cardano_cbor_writer_write_bytestring (List.replicate 65 1))) =
      .ok (.bytes (List.replicate 65 1), ⟨[], []⟩) ∧
    cardano_metadatum_from_cbor
        (mkCborReader
          (cardano_cbor_writer_write_textstring (List.replicate 65 1))) =
      .ok (.text (List.replicate 65 1), ⟨[], []⟩) :=
  ⟨c3_metadatum_size_limits.1 _ (by decide),
   c3_metadatum_size_limits.2.1 _ (by decide),
   c3_metadatum_size_limits.2.2.1 _ (by decide),
   c3_metadatum_size_limits.2.2.2 _ (by decide)⟩

/-! ## JSON bridge

JSON values as produced by json-c's tokener.  C strings are byte
sequences, so JSON strings and object keys are byte lists; `num` is a
json-c integer-typed number (int64/uint64 storage) and `double` a
double-typed one, carried as its value truncated toward zero: the
dispatch in metadatum.c ignores the payload and
`json_object_get_uint64` truncates before clamping, so the fractional
part is unobservable in the modelled code. -/

inductive JsonValue where
  | obj : List (List Nat × JsonValue) → JsonValue
  | arr : List JsonValue → JsonValue
  | str : List Nat → JsonValue
  | num : Int → JsonValue
  | double : Int → JsonValue
  | boolean : Bool → JsonValue
  | null : JsonValue

/-- `json_object_object_get_ex`: first member with the given key. -/
def jsonObjectGet (j : JsonValue) (key : List Nat) : Option JsonValue :=
  match j with
  | .obj kvs => (kvs.find? (fun p => p.1 == key)).map (fun p => p.2)
  | _ => none

/-- `json_object_get_int64` (json-c): the stored value clamped to the
int64 range. -/
def jsonGetInt64 (v : Int) : Int :=
  if v < -9223372036854775808 then -9223372036854775808
  else if 9223372036854775807 < v then 9223372036854775807
  else v

/-- `json_object_get_uint64` (json-c): the stored value clamped to the
uint64 range. -/
def jsonGetUint64 (v : Int) : Nat :=
  if v < 0 then 0
  else if 18446744073709551615 < v then 18446744073709551615
  else v.toNat

/-- The bytes `isspace` accepts: space, \t, \n, \v, \f, \r. -/
def isSpaceByte (c : Nat) : Bool :=
  c == 32 || c == 9 || c == 10 || c == 11 || c == 12 || c == 13

/-- Decimal digit bytes. -/
def isDigitByte (c : Nat) : Bool :=
  decide (48 ≤ c) && decide (c ≤ 57)

/-- `json_parse_uint64` (json-c): leading spaces are skipped and a
leading minus sign fails; then `strtoull(buf, &end, 10)` parses an
optional plus sign and decimal digits, saturating at UINT64_MAX on
overflow (errno makes the zero result fail, a saturated one pass); at
least one digit must be consumed and trailing bytes are ignored. -/
def jsonParseUint64 (cs : List Nat) : Option Nat :=
  let cs1 := cs.dropWhile isSpaceByte
  match cs1 with
  | 45 :: _ => none
  | _ =>
    let cs2 :=
      match cs1 with
      | 43 :: rest => rest
      | _ => cs1
    let digits := cs2.takeWhile isDigitByte
    if digits = [] then none
    else some (min (digits.foldl (fun a c => a * 10 + (c - 48)) 0)
                   18446744073709551615)

/-- `json_object_get_uint64` (json-c) applied to an arbitrary member:
integer-typed numbers clamp to [0, UINT64_MAX]; double-typed numbers
read as 0 when non-positive, UINT64_MAX when at least UINT64_MAX, and
truncate otherwise; booleans read as 0 or 1; strings go through
`json_parse_uint64` and read as 0 when that fails; objects, arrays and
nulls read as 0. -/
def jsonValueUint64 : JsonValue → Nat
  | .num v => jsonGetUint64 v
  | .double d =>
    if d ≤ 0 then 0
    else if 18446744073709551615 ≤ d then 18446744073709551615
    else d.toNat
  | .boolean b => if b then 1 else 0
  | .str s =>
    match jsonParseUint64 s with
    | some v => v
    | none => 0
  | _ => 0

mutual

/-- `convert_json_to_metadatum` (metadatum.c): objects and arrays
recurse; strings are measured with `cardano_safe_strlen(str, 64)` and so
truncated to their first 64 bytes; integer-typed numbers go through
`json_object_get_int64`, with the unsigned path when that reads 0; every
other JSON kind is `CARDANO_ERROR_INVALID_JSON`. -/
def convert_json_to_metadatum :
    JsonValue → Except CardanoError cardano_metadatum_t
  | .obj kvs => handle_json_object kvs
  | .arr elems => handle_json_array elems
  | .str s => .ok (.text (s.take 64))
  | .num v =>
    let value := jsonGetInt64 v
    if value = 0 then .ok (.integer (jsonGetUint64 v : Nat))
    else .ok (.integer value)
  | .double _ => .error .invalidJson
  | .boolean _ => .error .invalidJson
  | .null => .error .invalidJson

/-- `handle_json_object` (metadatum.c): each member's value is converted
first; the key is turned into a text metadatum measured with
`cardano_safe_strlen(key, 64)` (truncated to 64 bytes) and the pair is
inserted into the map. -/
def handle_json_object :
    List (List Nat × JsonValue) → Except CardanoError cardano_metadatum_t
  | kvs =>
    match handleJsonObjectEntries kvs with
    | .error e => .error e
    | .ok pairs => .ok (.map pairs)

def handleJsonObjectEntries :
    List (List Nat × JsonValue) →
    Except CardanoError (List (cardano_metadatum_t × cardano_metadatum_t))
  | [] => .ok []
  | (key, val) :: rest =>
    match convert_json_to_metadatum val with
    | .error e => .error e
    | .ok value =>
      match handleJsonObjectEntries rest with
      | .error e => .error e
      | .ok pairs => .ok ((.text (key.take 64), value) :: pairs)

/-- `handle_json_array` (metadatum.c). -/
def handle_json_array :
    List JsonValue → Except CardanoError cardano_metadatum_t
  | elems =>
    match handleJsonArrayItems elems with
    | .error e => .error e
    | .ok items => .ok (.list items)

def handleJsonArrayItems :
    List JsonValue → Except CardanoError (List cardano_metadatum_t)
  | [] => .ok []
  | e :: rest =>
    match convert_json_to_metadatum e with
    | .error err => .error err
    | .ok m =>
      match handleJsonArrayItems rest with
      | .error err => .error err
      | .ok items => .ok (m :: items)

end

/-- `cardano_metadatum_from_json` (metadatum.c): `json_tokener_parse` is
external json-c code, so the model starts from the parsed value; the
NULL-pointer and empty-input guards that precede parsing are outside the
model. -/
def cardano_metadatum_from_json (j : JsonValue) :
    Except CardanoError cardano_metadatum_t :=
  convert_json_to_metadatum j

mutual

/-- `convert_metadatum_to_json_object` (metadatum.c): integers go through
`cardano_bigint_to_int` (clamped to int64), text becomes a JSON string,
lists and maps recurse, and bytes yields NULL (with last_error "Metadatum
of type 'bytes' cannot be converted to JSON.", not modelled). -/
def convert_metadatum_to_json_object : cardano_metadatum_t → Option JsonValue
  | .integer i => some (.num (jsonGetInt64 i))
  | .text ts => some (.str ts)
  | .list items =>
    match metadatumListToJson items with
    | none => none
    | some elems => some (.arr elems)
  | .map pairs =>
    match metadatumMapToJson pairs with
    | none => none
    | some kvs => some (.obj kvs)
  | .bytes _ => none

/-- List case of `convert_metadatum_to_json_object`: here the `elem ==
NULL` check is on the converted JSON element, so a failing element aborts
the conversion. -/
def metadatumListToJson : List cardano_metadatum_t → Option (List JsonValue)
  | [] => some []
  | m :: rest =>
    match convert_metadatum_to_json_object m with
    | none => none
    | some elem =>
      match metadatumListToJson rest with
      | none => none
      | some elems => some (elem :: elems)

/-- Map case of `convert_metadatum_to_json_object`: non-text keys abort
(NULL, "JSON map keys must be strings.").  After converting a value the
code tests `value == NULL` — the metadatum pointer, which is never NULL —
instead of `json_value`, so a value that failed to convert is passed as
NULL to `json_object_object_add`, which stores a JSON null member. -/
def metadatumMapToJson :
    List (cardano_metadatum_t × cardano_metadatum_t) →
    Option (List (List Nat × JsonValue))
  | [] => some []
  | (key, value) :: rest =>
    match key with
    | .text ts =>
      let json_value := (convert_metadatum_to_json_object value).getD .null
      match metadatumMapToJson rest with
      | none => none
      | some kvs => some ((ts, json_value) :: kvs)
    | _ => none

end

/-- `cardano_metadatum_to_json` (metadatum.c): a NULL conversion result
is `CARDANO_ERROR_INVALID_METADATUM_CONVERSION`; the json-c string
rendering and the caller-supplied buffer are outside the model. -/
def cardano_metadatum_to_json (m : cardano_metadatum_t) :
    Except CardanoError JsonValue :=
  match convert_metadatum_to_json_object m with
  | none => .error .invalidMetadatumConversion
  | some j => .ok j

/-- Every key produced by `handleJsonObjectEntries` is a text
metadatum. -/
theorem handleJsonObjectEntries_keys (kvs : List (List Nat × JsonValue)) :
    ∀ pairs, handleJsonObjectEntries kvs = .ok pairs →
      ∀ p ∈ pairs, ∃ ts, p.1 = cardano_metadatum_t.text ts := by
  induction kvs with
  | nil =>
    intro pairs h p hp
    simp only [handleJsonObjectEntries, Except.ok.injEq] at h
    subst h
    exact absurd hp (List.not_mem_nil p)
  | cons kv rest ih =>
    intro pairs h p hp
    obtain ⟨key, val⟩ := kv
    simp only [handleJsonObjectEntries] at h
    split at h
    · exact absurd h (by simp)
    · split at h
      · exact absurd h (by simp)
      · rename_i value hcv ps hre
        simp only [Except.ok.injEq] at h
        subst h
        rcases List.mem_cons.mp hp with hpe | hp2
        · exact ⟨key.take 64, by rw [hpe]⟩
        · exact ih ps hre p hp2

/-- C7: a bytes metadatum itself, and a bytes node inside a list, make
`cardano_metadatum_to_json` fail with
`CARDANO_ERROR_INVALID_METADATUM_CONVERSION`; but the claim that any
tree containing a bytes node fails is wrong: a bytes node sitting as a
map value is serialized as a JSON null member and the conversion
succeeds, because after converting a map value the code checks the
metadatum pointer (`value`) instead of the converted JSON object
(`json_value`). -/
theorem c7_bytes_to_json_map_value :
    (∀ bs : List Nat, cardano_metadatum_to_json (.bytes bs) =
      .error .invalidMetadatumConversion) ∧
    (∀ bs : List Nat, cardano_metadatum_to_json (.list [.bytes bs]) =
      .error .invalidMetadatumConversion) ∧
    cardano_metadatum_to_json (.map [(.text [107], .bytes [0])]) =
      .ok (.obj [([107], .null)]) := by
  refine ⟨?_, ?_, ?_⟩
  · intro bs
    simp [cardano_metadatum_to_json, convert_metadatum_to_json_object]
  · intro bs
    simp [cardano_metadatum_to_json, convert_metadatum_to_json_object,
          metadatumListToJson]
  · simp [cardano_metadatum_to_json, convert_metadatum_to_json_object,
          metadatumMapToJson]

/-- C8 (corrected): `cardano_metadatum_from_json` maps a JSON object to
a metadatum map with text keys, an array to a list, a json-c
integer-typed number to an integer, and a string to a text metadatum
holding the string's FIRST 64 BYTES (not the whole string); doubles,
booleans and nulls fail with `CARDANO_ERROR_INVALID_JSON`. -/
theorem c8_json_to_metadatum_structure :
    (∀ kvs m, cardano_metadatum_from_json (.obj kvs) = .ok m →
      ∃ pairs, m = .map pairs ∧
        ∀ p ∈ pairs, ∃ ts, p.1 = cardano_metadatum_t.text ts) ∧
    (∀ elems m, cardano_metadatum_from_json (.arr elems) = .ok m →
      ∃ items, m = .list items) ∧
    (∀ v : Int, ∃ i : Int,
      cardano_metadatum_from_json (.num v) = .ok (.integer i)) ∧
    (∀ s : List Nat,
      cardano_metadatum_from_json (.str s) = .ok (.text (s.take 64))) ∧
    (∀ d, cardano_metadatum_from_json (.double d) = .error .invalidJson) ∧
    (∀ bv, cardano_metadatum_from_json (.boolean bv) =
      .error .invalidJson) ∧
    cardano_metadatum_from_json .null = .error .invalidJson := by
  refine ⟨?_, ?_, ?_, ?_, ?_, ?_, ?_⟩
  · intro kvs m h
    simp only [cardano_metadatum_from_json, convert_json_to_metadatum,
               handle_json_object] at h
    split at h
    · exact absurd h (by simp)
    · rename_i pairs hre
      simp only [Except.ok.injEq] at h
      subst h
      exact ⟨pairs, rfl, handleJsonObjectEntries_keys kvs pairs hre⟩
  · intro elems m h
    simp only [cardano_metadatum_from_json, convert_json_to_metadatum,
               handle_json_array] at h
    split at h
    · exact absurd h (by simp)
    · rename_i items hre
      simp only [Except.ok.injEq] at h
      subst h
      exact ⟨items, rfl⟩
  · intro v
    refine ⟨if jsonGetInt64 v = 0 then ((jsonGetUint64 v : Nat) : Int)
            else jsonGetInt64 v, ?_⟩
    simp only [cardano_metadatum_from_json, convert_json_to_metadatum]
    split_ifs with hv <;> rfl
  · intro s
    simp [cardano_metadatum_from_json, convert_json_to_metadatum]
  · intro d
    simp [cardano_metadatum_from_json, convert_json_to_metadatum]
  · intro bv
    simp [cardano_metadatum_from_json, convert_json_to_metadatum]
  · simp [cardano_metadatum_from_json, convert_json_to_metadatum]

theorem c8_json_to_metadatum_structure_witness :
    (∃ pairs, cardano_metadatum_t.map [(.text [107], .integer 1)] =
        .map pairs ∧
      ∀ p ∈ pairs, ∃ ts, p.1 = cardano_metadatum_t.text ts) ∧
    (∃ items, cardano_metadatum_t.list [.integer 1] = .list items) :=
  ⟨c8_json_to_metadatum_structure.1 [([107], .num 1)] _ (by
      simp [cardano_metadatum_from_json, convert_json_to_metadatum,
            handle_json_object, handleJsonObjectEntries, jsonGetInt64,
            jsonGetUint64]),
   c8_json_to_metadatum_structure.2.1 [.num 1] _ (by
      simp [cardano_metadatum_from_json, convert_json_to_metadatum,
            handle_json_array, handleJsonArrayItems, jsonGetInt64,
            jsonGetUint64])⟩

/-- A 65-byte JSON string does not come back as a text metadatum holding
that string: the first 64 bytes are kept. -/
theorem c8_string_not_preserved :
    cardano_metadatum_from_json (.str (List.replicate 65 97)) =
      .ok (.text (List.replicate 64 97)) ∧
    cardano_metadatum_t.text (List.replicate 64 97) ≠
      cardano_metadatum_t.text (List.replicate 65 97) := by
  constructor
  · simp [cardano_metadatum_from_json, convert_json_to_metadatum,
          List.take_replicate]
  · intro h
    injection h with h
    have hl : (List.replicate 64 97).length = (List.replicate 65 97).length :=
      by rw [h]
    simp at hl

/-- C9: JSON strings longer than 64 bytes are silently truncated by
`cardano_metadatum_from_json`: a string value becomes a text metadatum
holding exactly its first 64 bytes, and an object key likewise becomes a
64-byte text key, because both are measured with
`cardano_safe_strlen(_, 64)`. -/
theorem c9_json_string_truncation :
    (∀ s : List Nat, 64 < s.length →
      cardano_metadatum_from_json (.str s) = .ok (.text (s.take 64))) ∧
    (∀ k : List Nat, ∀ v m, 64 < k.length →
      convert_json_to_metadatum v = .ok m →
      cardano_metadatum_from_json (.obj [(k, v)]) =
        .ok (.map [(.text (k.take 64), m)])) := by
  constructor
  · intro s _
    simp [cardano_metadatum_from_json, convert_json_to_metadatum]
  · intro k v m _ hv
    simp [cardano_metadatum_from_json, convert_json_to_metadatum,
          handle_json_object, handleJsonObjectEntries, hv]

theorem c9_json_string_truncation_witness :
    cardano_metadatum_from_json (.str (List.replicate 65 97)) =
        .ok (.text ((List.replicate 65 97).take 64)) ∧
    cardano_metadatum_from_json (.obj [(List.replicate 65 107, .num 1)]) =
        .ok (.map [(.text ((List.replicate 65 107).take 64), .integer 1)]) :=
  ⟨c9_json_string_truncation.1 _ (by decide),
   c9_json_string_truncation.2 _ (.num 1) (.integer 1) (by decide) (by
      simp [convert_json_to_metadatum, jsonGetInt64, jsonGetUint64])⟩

/-! ## Blockfrost script-evaluation response parser

`cardano_blockfrost_parse_tx_eval_response` and
`redeemer_tag_string_to_enum` are under `src/`; the redeemer list and its
`set_ex_units` operation are modelled from the spec (redeemer_list.c is
not under `src/`).  C strings are byte lists; the json-c tokener is
external, so the model starts from the parsed JSON value. -/

inductive cardano_redeemer_tag_t where
  | spend
  | mint
  | certificate
  | withdrawal
  | vote
  | propose
  deriving DecidableEq, Repr

/-- Modelled from the spec: a redeemer carries (tag, index, data,
ex-units). -/
structure cardano_redeemer_t where
  tag : cardano_redeemer_tag_t
  index : Nat
  data : cardano_plutus_data_t
  ex_units_mem : Nat
  ex_units_steps : Nat

/-- `redeemer_tag_string_to_enum`: "spend", "mint", "certificate",
"withdrawal", "vote", "propose" (as byte strings). -/
def redeemer_tag_string_to_enum (s : List Nat) :
    Option cardano_redeemer_tag_t :=
  if s = [115, 112, 101, 110, 100] then some .spend
  else if s = [109, 105, 110, 116] then some .mint
  else if s = [99, 101, 114, 116, 105, 102, 105, 99, 97, 116, 101] then
    some .certificate
  else if s = [119, 105, 116, 104, 100, 114, 97, 119, 97, 108] then
    some .withdrawal
  else if s = [118, 111, 116, 101] then some .vote
  else if s = [112, 114, 111, 112, 111, 115, 101] then some .propose
  else none

/-- `strchr(key, ':')`: the bytes before the first colon (58) and the
bytes after it; `none` when there is no colon. -/
def splitFirstColon : List Nat → Option (List Nat × List Nat)
  | [] => none
  | c :: rest =>
    if c = 58 then some ([], rest)
    else
      match splitFirstColon rest with
      | none => none
      | some (t, i) => some (c :: t, i)

/-- `strtol(index_str, &endptr, 10)` combined with the caller's
`*endptr == '\0'` check: optional whitespace, optional sign, at least
one decimal digit, and nothing after the digits.  Values beyond the
long range saturate at LONG_MAX / LONG_MIN, as strtol does (it sets
errno, which the caller never checks, and endptr still ends at the
digits, so the full-consumption check is unaffected). -/
def strtolFull (cs : List Nat) : Option Int :=
  let cs1 := cs.dropWhile isSpaceByte
  let signed : Int × List Nat :=
    match cs1 with
    | 45 :: rest => (-1, rest)
    | 43 :: rest => (1, rest)
    | _ => (1, cs1)
  let digits := signed.2.takeWhile isDigitByte
  let rest := signed.2.dropWhile isDigitByte
  if digits = [] then none
  else if rest ≠ [] then none
  else
    let v : Int :=
      signed.1 * (digits.foldl (fun a c => a * 10 + (c - 48)) 0 : Nat)
    if v < -9223372036854775808 then some (-9223372036854775808)
    else if 9223372036854775807 < v then some 9223372036854775807
    else some v

theorem strtolFull_nil : strtolFull [] = none := rfl

/-- Every value `strtolFull` returns lies in the long range:
overflowing digit strings saturate, as strtol's do. -/
theorem strtolFull_bounds (cs : List Nat) (v : Int)
    (h : strtolFull cs = some v) :
    -9223372036854775808 ≤ v ∧ v ≤ 9223372036854775807 := by
  unfold strtolFull at h
  dsimp only at h
  split_ifs at h with h1 h2 h3 h4 <;>
    simp only [Option.some.injEq] at h <;>
    omega

/-- The 19-digit index 9300000000000000000 exceeds LONG_MAX and
saturates there, matching strtol. -/
theorem strtolFull_saturates :
    strtolFull [57, 51, 48, 48, 48, 48, 48, 48, 48, 48, 48, 48, 48, 48,
                48, 48, 48, 48, 48] =
      some 9223372036854775807 := rfl

/-- Modelled from the spec: `cardano_redeemer_list_set_ex_units` copies
(memory, steps) into the redeemer with the given (tag, index); the
`long` index is converted to the function's uint64 parameter modulo
2^64. -/
def cardano_redeemer_list_set_ex_units (rl : List cardano_redeemer_t)
    (tag : cardano_redeemer_tag_t) (index : Int) (mem steps : Nat) :
    Except CardanoError (List cardano_redeemer_t) :=
  let uidx := (index % 18446744073709551616).toNat
  if rl.any (fun rd => decide (rd.tag = tag ∧ rd.index = uidx)) then
    .ok (rl.map (fun rd =>
      if rd.tag = tag ∧ rd.index = uidx then
        { rd with ex_units_mem := mem, ex_units_steps := steps }
      else rd))
  else .error .elementNotFound

/-- One iteration of the `json_object_object_foreach` loop in
`cardano_blockfrost_parse_tx_eval_response`: keys without a colon, with
a tag part of 128 bytes or more, with an empty or malformed index, or
with an unrecognized tag are skipped, as are entries without both
"memory" and "steps" members. -/
def blockfrostProcessEvalEntry (redeemers : List cardano_redeemer_t)
    (entry : List Nat × JsonValue) :
    Except CardanoError (List cardano_redeemer_t) :=
  match splitFirstColon entry.1 with
  | none => .ok redeemers
  | some (tagBytes, indexBytes) =>
    if 128 ≤ tagBytes.length then .ok redeemers
    else if indexBytes = [] then .ok redeemers
    else
      match strtolFull indexBytes with
      | none => .ok redeemers
      | some index =>
        match redeemer_tag_string_to_enum tagBytes with
        | none => .ok redeemers
        | some tag =>
          match jsonObjectGet entry.2 [109, 101, 109, 111, 114, 121],
                jsonObjectGet entry.2 [115, 116, 101, 112, 115] with
          | some memObj, some stepsObj =>
            cardano_redeemer_list_set_ex_units redeemers tag index
              (jsonValueUint64 memObj) (jsonValueUint64 stepsObj)
          | _, _ => .ok redeemers

def jsonMembers : JsonValue → List (List Nat × JsonValue)
  | .obj kvs => kvs
  | _ => []

/-- `"result"` as bytes. -/
def resultKey : List Nat := [114, 101, 115, 117, 108, 116]

/-- `"EvaluationFailure"` as bytes. -/
def evaluationFailureKey : List Nat :=
  [69, 118, 97, 108, 117, 97, 116, 105, 111, 110,
   70, 97, 105, 108, 117, 114, 101]

/-- `"EvaluationResult"` as bytes. -/
def evaluationResultKey : List Nat :=
  [69, 118, 97, 108, 117, 97, 116, 105, 111, 110,
   82, 101, 115, 117, 108, 116]

/-- `cardano_blockfrost_parse_tx_eval_response`: the clone of the
original redeemer list is the fold's initial value; a missing "result"
or "EvaluationResult" member is `CARDANO_ERROR_INVALID_JSON`, an
"EvaluationFailure" member is `CARDANO_ERROR_SCRIPT_EVALUATION_FAILURE`
(the clone is released and no list is returned, here the `Except`
error). -/
def cardano_blockfrost_parse_tx_eval_response (response : JsonValue)
    (original_redeemers : List cardano_redeemer_t) :
    Except CardanoError (List cardano_redeemer_t) :=
  match jsonObjectGet response resultKey with
  | none => .error .invalidJson
  | some resultObj =>
    match jsonObjectGet resultObj evaluationFailureKey with
    | some _ => .error .scriptEvaluationFailure
    | none =>
      match jsonObjectGet resultObj evaluationResultKey with
      | none => .error .invalidJson
      | some evalObj =>
        (jsonMembers evalObj).foldlM blockfrostProcessEvalEntry
          original_redeemers

/-- C6: whenever the parsed response's "result" object has an
"EvaluationFailure" member, `cardano_blockfrost_parse_tx_eval_response`
returns `CARDANO_ERROR_SCRIPT_EVALUATION_FAILURE` and no redeemer list,
for every original redeemer list. -/
theorem c6_eval_failure_error (response : JsonValue)
    (rl : List cardano_redeemer_t) (resObj fail : JsonValue)
    (hres : jsonObjectGet response resultKey = some resObj)
    (hfail : jsonObjectGet resObj evaluationFailureKey = some fail) :
    cardano_blockfrost_parse_tx_eval_response response rl =
      .error .scriptEvaluationFailure := by
  unfold cardano_blockfrost_parse_tx_eval_response
  rw [hres]
  dsimp only
  rw [hfail]

theorem c6_eval_failure_error_witness :
    cardano_blockfrost_parse_tx_eval_response
        (.obj [(resultKey, .obj [(evaluationFailureKey, .obj [])])])
        [⟨.spend, 0, ⟨[1]⟩, 0, 0⟩] =
      .error .scriptEvaluationFailure :=
  c6_eval_failure_error _ _ _ _ rfl rfl

/-- C5: the whole parse is the entry-by-entry fold over
result.EvaluationResult; an entry whose key splits as "<tag>:<index>"
with a recognized tag, a well-formed decimal index, and both "memory"
and "steps" members sets the ex-units of every redeemer with that
(tag, index) pair; entries with no colon, a malformed (or empty) index,
or an unrecognized tag are skipped, leaving the list unchanged and
producing no error. -/
theorem c5_blockfrost_eval_entries :
    (∀ entries rl,
      cardano_blockfrost_parse_tx_eval_response
          (.obj [(resultKey, .obj [(evaluationResultKey, .obj entries)])])
          rl =
        entries.foldlM blockfrostProcessEvalEntry rl) ∧
    (∀ (rl : List cardano_redeemer_t) (key : List Nat) (v : JsonValue)
        tagBytes indexBytes tag index memObj stepsObj,
      splitFirstColon key = some (tagBytes, indexBytes) →
      tagBytes.length < 128 →
      strtolFull indexBytes = some index →
      redeemer_tag_string_to_enum tagBytes = some tag →
      jsonObjectGet v [109, 101, 109, 111, 114, 121] = some memObj →
      jsonObjectGet v [115, 116, 101, 112, 115] = some stepsObj →
      (∃ rd ∈ rl, rd.tag = tag ∧
        rd.index = (index % 18446744073709551616).toNat) →
      blockfrostProcessEvalEntry rl (key, v) =
        .ok (rl.map (fun rd =>
          if rd.tag = tag ∧
              rd.index = (index % 18446744073709551616).toNat then
            { rd with ex_units_mem := jsonValueUint64 memObj,
                      ex_units_steps := jsonValueUint64 stepsObj }
          else rd))) ∧
    (∀ (rl : List cardano_redeemer_t) key v,
      splitFirstColon key = none →
      blockfrostProcessEvalEntry rl (key, v) = .ok rl) ∧
    (∀ (rl : List cardano_redeemer_t) key v tagBytes indexBytes,
      splitFirstColon key = some (tagBytes, indexBytes) →
      strtolFull indexBytes = none →
      blockfrostProcessEvalEntry rl (key, v) = .ok rl) ∧
    (∀ (rl : List cardano_redeemer_t) key v tagBytes indexBytes,
      splitFirstColon key = some (tagBytes, indexBytes) →
      redeemer_tag_string_to_enum tagBytes = none →
      blockfrostProcessEvalEntry rl (key, v) = .ok rl) := by
  refine ⟨?_, ?_, ?_, ?_, ?_⟩
  · intro entries rl
    rfl
  · intro rl key v tagBytes indexBytes tag index memObj stepsObj hsplit
      hlen hstr htag hmem hsteps hex
    unfold blockfrostProcessEvalEntry
    dsimp only
    rw [hsplit]
    dsimp only
    have hne : indexBytes ≠ [] := by
      intro hc
      rw [hc, strtolFull_nil] at hstr
      exact Option.noConfusion hstr
    rw [if_neg (by omega), if_neg hne, hstr]
    dsimp only
    rw [htag]
    dsimp only
    rw [hmem, hsteps]
    dsimp only
    unfold cardano_redeemer_list_set_ex_units
    dsimp only
    have hany : rl.any (fun rd => decide (rd.tag = tag ∧
        rd.index = (index % 18446744073709551616).toNat)) = true := by
      obtain ⟨rd, hrd, h1, h2⟩ := hex
      exact List.any_eq_true.mpr ⟨rd, hrd, by simp [h1, h2]⟩
    rw [if_pos hany]
  · intro rl key v hsplit
    unfold blockfrostProcessEvalEntry
    dsimp only
    rw [hsplit]
  · intro rl key v tagBytes indexBytes hsplit hstr
    unfold blockfrostProcessEvalEntry
    dsimp only
    rw [hsplit]
    dsimp only
    by_cases h128 : 128 ≤ tagBytes.length
    · rw [if_pos h128]
    · rw [if_neg h128]
      by_cases hni : indexBytes = []
      · rw [if_pos hni]
      · rw [if_neg hni, hstr]
  · intro rl key v tagBytes indexBytes hsplit htag
    unfold blockfrostProcessEvalEntry
    dsimp only
    rw [hsplit]
    dsimp only
    by_cases h128 : 128 ≤ tagBytes.length
    · rw [if_pos h128]
    · rw [if_neg h128]
      by_cases hni : indexBytes = []
      · rw [if_pos hni]
      · rw [if_neg hni]
        cases hs : strtolFull indexBytes with
        | none => rfl
        | some index =>
          dsimp only
          rw [htag]

theorem c5_blockfrost_eval_entries_witness :
    blockfrostProcessEvalEntry [⟨.spend, 0, ⟨[1]⟩, 0, 0⟩]
        ([115, 112, 101, 110, 100, 58, 48],
         .obj [([109, 101, 109, 111, 114, 121], .num 2000),
               ([115, 116, 101, 112, 115], .num 500000)]) =
      .ok ([⟨.spend, 0, ⟨[1]⟩, 0, 0⟩].map (fun rd =>
        if rd.tag = .spend ∧
            rd.index = ((0 : Int) % 18446744073709551616).toNat then
          { rd with ex_units_mem := jsonValueUint64 (.num 2000),
                    ex_units_steps := jsonValueUint64 (.num 500000) }
        else rd)) ∧
    blockfrostProcessEvalEntry [⟨.spend, 0, ⟨[1]⟩, 0, 0⟩]
        ([117, 110, 107, 110, 111, 119, 110, 58, 55], .obj []) =
      .ok [⟨.spend, 0, ⟨[1]⟩, 0, 0⟩] :=
  ⟨c5_blockfrost_eval_entries.2.1 _ _ _ _ _ _ _ _ _ rfl (by decide) rfl rfl
      rfl rfl ⟨⟨.spend, 0, ⟨[1]⟩, 0, 0⟩, List.mem_singleton.mpr rfl, rfl,
        by decide⟩,
   c5_blockfrost_eval_entries.2.2.2.2 _ _ _ _ _ rfl rfl⟩

end CardanoC
